import Mathlib

/-!
Verification of the instruction-driven Excel transformation engine
(`excel_processor_v8.py`, `onedrive_handler_v8.py`).

The Python code is shallowly embedded: pandas DataFrames become an explicit
`Frame` (an index length plus labelled columns), Python cell objects become
the inductive `Cell`, exceptions become `Option`, and the two external
library entry points whose exact behaviour the repository does not define
(`pd.to_datetime`'s lenient string inference, and its scalar conversion of
non-date non-string values) are abstracted as documented below.
-/

namespace EMP

/-- A Python cell value as it occurs in the processed tables and in the
instruction workbook: a string, an integer, a boolean, `None`, a missing
value (`NaN`), or a native date/time (`pandas.Timestamp` at midnight;
only year/month/day are ever consulted by the code). -/
inductive Cell where
  | str (s : String)
  | int (n : Int)
  | bool (b : Bool)
  | pynone
  | nan
  | date (y m d : Nat)
deriving DecidableEq, Repr

/-- Python `str()` of a cell value (`str(5) = "5"`, `str(True) = "True"`,
`str(None) = "None"`, `str(float("nan")) = "nan"`,
`str(Timestamp) = "YYYY-MM-DD HH:MM:SS"`). -/
def pad2 (n : Nat) : String :=
  if n < 10 then "0" ++ toString n else toString n

def pyStr : Cell → String
  | .str s => s
  | .int n => toString n
  | .bool b => if b then "True" else "False"
  | .pynone => "None"
  | .nan => "nan"
  | .date y m d => toString y ++ "-" ++ pad2 m ++ "-" ++ pad2 d ++ " 00:00:00"

/-- Python truthiness of a cell value.  Note `float("nan")` is truthy. -/
def truthy : Cell → Bool
  | .str s => s ≠ ""
  | .int n => n ≠ 0
  | .bool b => b
  | .pynone => false
  | .nan => true
  | .date _ _ _ => true

/-- `pd.isna` (which is also true on `None`); the code guards date cells
with `pd.isna(v) or v is None`. -/
def pyIsNA : Cell → Bool
  | .nan => true
  | .pynone => true
  | _ => false

/-- Python `==` between a cell and a string literal (the only typed
equalities the code performs, e.g. `action == 'create'`): true exactly for
an equal string. -/
def pyEqStr (c : Cell) (s : String) : Bool :=
  match c with
  | .str t => t == s
  | _ => false

/-- Canonical dictionary key of a cell: Python hashes `True`/`1` alike, so
label and dict-key equality identifies booleans with 0/1; an identical NaN
object used as a label is found again (pandas indexes NaN labels). -/
def keyOf : Cell → Cell
  | .bool b => .int (if b then 1 else 0)
  | c => c

/-- Label / dictionary-key equality between cells. -/
def cellKeyEq (a b : Cell) : Bool := keyOf a == keyOf b

/-! ### Python string helpers (`lower`, `upper`, `strip`, substring) -/

/-- Python `str.lower` restricted to the alphabets that occur in this
program: ASCII and Cyrillic (А–Я, Ё). -/
def pyLowerChar (c : Char) : Char :=
  if 'A' ≤ c ∧ c ≤ 'Z' then Char.ofNat (c.toNat + 32)
  else if 0x410 ≤ c.toNat ∧ c.toNat ≤ 0x42F then Char.ofNat (c.toNat + 32)
  else if c.toNat = 0x401 then Char.ofNat 0x451
  else c

def pyUpperChar (c : Char) : Char :=
  if 'a' ≤ c ∧ c ≤ 'z' then Char.ofNat (c.toNat - 32)
  else if 0x430 ≤ c.toNat ∧ c.toNat ≤ 0x44F then Char.ofNat (c.toNat - 32)
  else if c.toNat = 0x451 then Char.ofNat 0x401
  else c

def pyLower (s : String) : String := String.mk (s.toList.map pyLowerChar)

def pyUpper (s : String) : String := String.mk (s.toList.map pyUpperChar)

/-- Python whitespace as stripped by `str.strip` / matched by `\s`:
space, tab, newline, carriage return, vertical tab, form feed. -/
def isPyWs (c : Char) : Bool :=
  c.toNat = 32 ∨ c.toNat = 9 ∨ c.toNat = 10 ∨ c.toNat = 13 ∨ c.toNat = 11 ∨ c.toNat = 12

def pyStrip (s : String) : String :=
  String.mk (((s.toList.dropWhile isPyWs).reverse.dropWhile isPyWs).reverse)

/-- `lower().strip()` normalisation used by the case-insensitive column
matching in both modules. -/
def pyNorm (s : String) : String := pyStrip (pyLower s)

def startsWithL : List Char → List Char → Bool
  | [], _ => true
  | _ :: _, [] => false
  | a :: ps, b :: bs => a == b && startsWithL ps bs

/-- Python `p in s` substring containment. -/
def listHasSub (p : List Char) : List Char → Bool
  | [] => p.isEmpty
  | c :: rest => startsWithL p (c :: rest) || listHasSub p rest

def strHasSub (p s : String) : Bool := listHasSub p.toList s.toList

/-! ### The pandas DataFrame model

A `Frame` is the length of the row index together with the ordered,
labelled columns.  `pd.DataFrame()` starts with an empty index; assigning
a scalar broadcasts over the current index, while assigning a non-empty
Series to a frame whose index is still empty makes the frame adopt the
Series' index, reindexing (NaN-filling) the existing columns
(`DataFrame._ensure_valid_index`). -/

/-! Labelled association lists, used both for DataFrame columns (values:
`List Cell`) and for Python dicts (values: `Cell`), with key equality
`cellKeyEq`. -/

/-- Is some entry labelled (key-equal to) `k`? -/
def anyKey {α : Type} (k : Cell) : List (Cell × α) → Bool
  | [] => false
  | p :: ps => cellKeyEq p.1 k || anyKey k ps

/-- First entry labelled `k`. -/
def entryLookup {α : Type} : List (Cell × α) → Cell → Option α
  | [], _ => none
  | p :: ps, k => if cellKeyEq p.1 k then some p.2 else entryLookup ps k

/-- Transform the value of every entry labelled `k`. -/
def mapVals {α : Type} (k : Cell) (f : α → α) : List (Cell × α) → List (Cell × α)
  | [] => []
  | p :: ps => (if cellKeyEq p.1 k then (p.1, f p.2) else p) :: mapVals k f ps

/-- Store under a key: overwrite the existing entry in place, or append a
new entry at the end (Python dict assignment; pandas `df[k] = ...`). -/
def upsert {α : Type} (d : List (Cell × α)) (k : Cell) (v : α) : List (Cell × α) :=
  if anyKey k d then mapVals k (fun _ => v) d else d ++ [(k, v)]

structure Frame where
  nrows : Nat
  cols : List (Cell × List Cell)
deriving Repr, DecidableEq

def emptyFrame : Frame := ⟨0, []⟩

/-- Well-formedness: every column holds one value per index entry. -/
def Frame.WF (f : Frame) : Prop := ∀ p ∈ f.cols, p.2.length = f.nrows

def colNames (f : Frame) : List Cell := f.cols.map Prod.fst

/-- Label lookup `df[name]`. -/
def colValues (f : Frame) (name : Cell) : Option (List Cell) :=
  entryLookup f.cols name

/-- `name in df.columns`. -/
def hasCol (f : Frame) (name : Cell) : Bool :=
  anyKey name f.cols

/-- `df[name] = scalar`: broadcast over the current index. -/
def setScalar (f : Frame) (name : Cell) (v : Cell) : Frame :=
  ⟨f.nrows, upsert f.cols name (List.replicate f.nrows v)⟩

/-- Reindex a Series with `RangeIndex(vs.length)` to `RangeIndex(n)`. -/
def reindexTo (vs : List Cell) (n : Nat) : List Cell :=
  (List.range n).map (fun i => vs.getD i Cell.nan)

/-- `df[name] = series`: a non-empty Series assigned while the index is
still empty makes the frame adopt the Series' index and NaN-fills the
existing columns (`DataFrame._ensure_valid_index`); otherwise the Series
is reindexed to the frame's index. -/
def setSeries (f : Frame) (name : Cell) (vs : List Cell) : Frame :=
  if f.nrows = 0 ∧ vs ≠ [] then
    ⟨vs.length,
     upsert (f.cols.map (fun p => (p.1, List.replicate vs.length Cell.nan))) name vs⟩
  else
    ⟨f.nrows, upsert f.cols name (reindexTo vs f.nrows)⟩

/-- `df.loc[mask, name] = v`: write `v` into the rows where the boolean
mask holds, in every column labelled `name`. -/
def setMasked (f : Frame) (name : Cell) (mask : List Bool) (v : Cell) : Frame :=
  ⟨f.nrows,
   mapVals name (fun vals => List.zipWith (fun b old => if b then v else old) mask vals)
     f.cols⟩

/-! ### Date Formatter (`_format_date_column` / `format_single_date`)

`datetime.strptime` compiles each format directive to a regular
expression (`_strptime.TimeRE`) and requires a full match, then the
`datetime` constructor validates the calendar date.  The directive
regexes are: `%Y` = four digits, `%d` = `3[0-1]|[1-2]\d|0[1-9]|[1-9]| [1-9]`,
`%m` = `1[0-2]|0[1-9]|[1-9]`, `%H` = `2[0-3]|[0-1]\d|\d`,
`%M` = `[0-5]\d|\d`, `%S` = `6[0-1]|[0-5]\d|\d`, and a whitespace in the
format matches one or more whitespace characters.  Ordered alternation
with backtracking is modelled by returning every prefix parse of a field
and trying continuations in order. -/

structure PyDate where
  year : Nat
  month : Nat
  day : Nat
deriving DecidableEq, Repr

def dval (c : Char) : Nat := c.toNat - 48

def dayAlts (cs : List Char) : List (Nat × List Char) :=
  (match cs with
   | '3' :: c :: r => if c = '0' ∨ c = '1' then [(30 + dval c, r)] else []
   | _ => []) ++
  (match cs with
   | a :: c :: r => if (a = '1' ∨ a = '2') ∧ c.isDigit then [(dval a * 10 + dval c, r)] else []
   | _ => []) ++
  (match cs with
   | '0' :: c :: r => if '1' ≤ c ∧ c ≤ '9' then [(dval c, r)] else []
   | _ => []) ++
  (match cs with
   | c :: r => if '1' ≤ c ∧ c ≤ '9' then [(dval c, r)] else []
   | _ => []) ++
  (match cs with
   | ' ' :: c :: r => if '1' ≤ c ∧ c ≤ '9' then [(dval c, r)] else []
   | _ => [])

def monAlts (cs : List Char) : List (Nat × List Char) :=
  (match cs with
   | '1' :: c :: r => if c = '0' ∨ c = '1' ∨ c = '2' then [(10 + dval c, r)] else []
   | _ => []) ++
  (match cs with
   | '0' :: c :: r => if '1' ≤ c ∧ c ≤ '9' then [(dval c, r)] else []
   | _ => []) ++
  (match cs with
   | c :: r => if '1' ≤ c ∧ c ≤ '9' then [(dval c, r)] else []
   | _ => [])

def yearAlts (cs : List Char) : List (Nat × List Char) :=
  match cs with
  | a :: b :: c :: d :: r =>
    if a.isDigit ∧ b.isDigit ∧ c.isDigit ∧ d.isDigit then
      [(dval a * 1000 + dval b * 100 + dval c * 10 + dval d, r)] else []
  | _ => []

def hourAlts (cs : List Char) : List (Nat × List Char) :=
  (match cs with
   | '2' :: c :: r => if '0' ≤ c ∧ c ≤ '3' then [(20 + dval c, r)] else []
   | _ => []) ++
  (match cs with
   | a :: c :: r => if (a = '0' ∨ a = '1') ∧ c.isDigit then [(dval a * 10 + dval c, r)] else []
   | _ => []) ++
  (match cs with
   | c :: r => if c.isDigit then [(dval c, r)] else []
   | _ => [])

def minAlts (cs : List Char) : List (Nat × List Char) :=
  (match cs with
   | a :: c :: r => if ('0' ≤ a ∧ a ≤ '5') ∧ c.isDigit then [(dval a * 10 + dval c, r)] else []
   | _ => []) ++
  (match cs with
   | c :: r => if c.isDigit then [(dval c, r)] else []
   | _ => [])

def secAlts (cs : List Char) : List (Nat × List Char) :=
  (match cs with
   | '6' :: c :: r => if c = '0' ∨ c = '1' then [(60 + dval c, r)] else []
   | _ => []) ++ minAlts cs

def litP (ch : Char) : List Char → Option (List Char)
  | c :: r => if c = ch then some r else none
  | [] => none

def wsRun : List Char → Option (List Char)
  | c :: r => if isPyWs c then some (r.dropWhile isPyWs) else none
  | [] => none

def isLeap (y : Nat) : Bool := y % 4 = 0 ∧ (y % 100 ≠ 0 ∨ y % 400 = 0)

def daysInMonth (y m : Nat) : Nat :=
  if m = 2 then (if isLeap y then 29 else 28)
  else if m = 4 ∨ m = 6 ∨ m = 9 ∨ m = 11 then 30
  else 31

/-- The `datetime` constructor's validation of the fields delivered by the
directive regexes (month and day lower bounds are enforced by the regex;
`MINYEAR = 1`). -/
def validYMD (y m d : Nat) : Bool := 1 ≤ y ∧ d ≤ daysInMonth y m

/-- `datetime.strptime(s, "%Y-%m-%d")`. -/
def strpYMD (s : String) : Option PyDate :=
  (yearAlts s.toList).findSome? fun p1 =>
  (litP '-' p1.2).bind fun r2 =>
  (monAlts r2).findSome? fun p3 =>
  (litP '-' p3.2).bind fun r4 =>
  (dayAlts r4).findSome? fun p5 =>
  if p5.2 = [] ∧ validYMD p1.1 p3.1 p5.1 then some ⟨p1.1, p3.1, p5.1⟩ else none

/-- `datetime.strptime(s, "%d<sep>%m<sep>%Y")` with `sep` either `.` or `/`. -/
def strpDMY (sep : Char) (s : String) : Option PyDate :=
  (dayAlts s.toList).findSome? fun p1 =>
  (litP sep p1.2).bind fun r2 =>
  (monAlts r2).findSome? fun p3 =>
  (litP sep p3.2).bind fun r4 =>
  (yearAlts r4).findSome? fun p5 =>
  if p5.2 = [] ∧ validYMD p5.1 p3.1 p1.1 then some ⟨p5.1, p3.1, p1.1⟩ else none

/-- `datetime.strptime(s, "%m/%d/%Y")`. -/
def strpMDY (s : String) : Option PyDate :=
  (monAlts s.toList).findSome? fun p1 =>
  (litP '/' p1.2).bind fun r2 =>
  (dayAlts r2).findSome? fun p3 =>
  (litP '/' p3.2).bind fun r4 =>
  (yearAlts r4).findSome? fun p5 =>
  if p5.2 = [] ∧ validYMD p5.1 p1.1 p3.1 then some ⟨p5.1, p1.1, p3.1⟩ else none

/-- `datetime.strptime(s, "%Y-%m-%d %H:%M:%S")`; the time-of-day is
validated (`datetime` rejects second = 60/61 which the `%S` regex admits)
and then discarded, since only day/month/year are consulted. -/
def strpYMDHMS (s : String) : Option PyDate :=
  (yearAlts s.toList).findSome? fun p1 =>
  (litP '-' p1.2).bind fun r2 =>
  (monAlts r2).findSome? fun p3 =>
  (litP '-' p3.2).bind fun r4 =>
  (dayAlts r4).findSome? fun p5 =>
  (wsRun p5.2).bind fun r6 =>
  (hourAlts r6).findSome? fun p7 =>
  (litP ':' p7.2).bind fun r8 =>
  (minAlts r8).findSome? fun p9 =>
  (litP ':' p9.2).bind fun r10 =>
  (secAlts r10).findSome? fun p11 =>
  if p11.2 = [] ∧ p11.1 ≤ 59 ∧ validYMD p1.1 p3.1 p5.1 then
    some ⟨p1.1, p3.1, p5.1⟩ else none

/-- The explicit candidate formats, tried in the source's order:
`['%Y-%m-%d', '%d.%m.%Y', '%d/%m/%Y', '%m/%d/%Y', '%Y-%m-%d %H:%M:%S']`. -/
def strptimeFirst (s : String) : Option PyDate :=
  (strpYMD s).orElse fun _ =>
  (strpDMY '.' s).orElse fun _ =>
  (strpDMY '/' s).orElse fun _ =>
  (strpMDY s).orElse fun _ =>
  strpYMDHMS s

/-- `pd.to_datetime(v)` on the non-string scalars that reach the
else-branch of `format_single_date` (library behaviour, summarised):
a `Timestamp`/`datetime` passes through; a small non-negative integer is
a nanosecond offset inside the epoch day 1970-01-01; a boolean raises
`TypeError` (modelled as `none`, which the surrounding `except` turns
into `str(v)` exactly as the raised error does); offsets of a day or
more do not occur in the claims and are likewise modelled as `none`. -/
def pdToDatetimeNonString : Cell → Option PyDate
  | .date y m d => some ⟨y, m, d⟩
  | .int n => if 0 ≤ n ∧ n < 86400000000000 then some ⟨1970, 1, 1⟩ else none
  | _ => none

def monthsRu : Nat → Option String
  | 1 => some "янв" | 2 => some "фев" | 3 => some "мар" | 4 => some "апр"
  | 5 => some "май" | 6 => some "июн" | 7 => some "июл" | 8 => some "авг"
  | 9 => some "сен" | 10 => some "окт" | 11 => some "ноя" | 12 => some "дек"
  | _ => none

def monthsRuFull : Nat → Option String
  | 1 => some "января" | 2 => some "февраля" | 3 => some "марта"
  | 4 => some "апреля" | 5 => some "мая" | 6 => some "июня"
  | 7 => some "июля" | 8 => some "августа" | 9 => some "сентября"
  | 10 => some "октября" | 11 => some "ноября" | 12 => some "декабря"
  | _ => none

def monthsEn : Nat → Option String
  | 1 => some "Jan" | 2 => some "Feb" | 3 => some "Mar" | 4 => some "Apr"
  | 5 => some "May" | 6 => some "Jun" | 7 => some "Jul" | 8 => some "Aug"
  | 9 => some "Sep" | 10 => some "Oct" | 11 => some "Nov" | 12 => some "Dec"
  | _ => none

def monthsEnFull : Nat → Option String
  | 1 => some "January" | 2 => some "February" | 3 => some "March"
  | 4 => some "April" | 5 => some "May" | 6 => some "June"
  | 7 => some "July" | 8 => some "August" | 9 => some "September"
  | 10 => some "October" | 11 => some "November" | 12 => some "December"
  | _ => none

/-- `self.month_names.get(date_locale, self.month_names['ru'])`: the dict
has the four string keys `ru`, `ru_full`, `en`, `en_full`; any other
locale falls back to the abbreviated Russian table.  Indexing the table
with a month outside 1..12 is a `KeyError` (`none`). -/
def monthTableFor (loc : Cell) : Nat → Option String :=
  if pyEqStr loc "ru" then monthsRu
  else if pyEqStr loc "ru_full" then monthsRuFull
  else if pyEqStr loc "en" then monthsEn
  else if pyEqStr loc "en_full" then monthsEnFull
  else monthsRu

/-- `self.month_names.get(f"{date_locale}_full", self.month_names['ru_full'])`:
the key is the string `str(date_locale) + "_full"`. -/
def monthTableForFullKey (key : String) : Nat → Option String :=
  if key = "ru" then monthsRu
  else if key = "ru_full" then monthsRuFull
  else if key = "en" then monthsEn
  else if key = "en_full" then monthsEnFull
  else monthsRuFull

/-- The rendering cascade of `format_single_date`: the five numeric
templates, the two month-name templates (whose table lookup can raise a
`KeyError`, modelled as `none`), and the default `DD.MM.YYYY` fallback
for an unrecognised format. -/
def renderDate (dateFmt dateLoc : Cell) (d : PyDate) : Option String :=
  if pyEqStr dateFmt "DD.MM.YYYY" then
    some (pad2 d.day ++ "." ++ pad2 d.month ++ "." ++ toString d.year)
  else if pyEqStr dateFmt "DD/MM/YYYY" then
    some (pad2 d.day ++ "/" ++ pad2 d.month ++ "/" ++ toString d.year)
  else if pyEqStr dateFmt "DD-MM-YYYY" then
    some (pad2 d.day ++ "-" ++ pad2 d.month ++ "-" ++ toString d.year)
  else if pyEqStr dateFmt "YYYY-MM-DD" then
    some (toString d.year ++ "-" ++ pad2 d.month ++ "-" ++ pad2 d.day)
  else if pyEqStr dateFmt "MM/DD/YYYY" then
    some (pad2 d.month ++ "/" ++ pad2 d.day ++ "/" ++ toString d.year)
  else if pyEqStr dateFmt "DD MMM YYYY" then
    (monthTableFor dateLoc d.month).map fun nm =>
      pad2 d.day ++ " " ++ nm ++ " " ++ toString d.year
  else if pyEqStr dateFmt "DD MMMM YYYY" then
    (monthTableForFullKey (pyStr dateLoc ++ "_full") d.month).map fun nm =>
      pad2 d.day ++ " " ++ nm ++ " " ++ toString d.year
  else
    some (pad2 d.day ++ "." ++ pad2 d.month ++ "." ++ toString d.year)

/-- `format_single_date` of `_format_date_column`.  `lenient` abstracts
the library call `pd.to_datetime(s, errors='coerce')` on strings (the
generic date inference of pandas/dateutil, external to this repository);
`none` stands for its `NaT` result.  Every raising operation is wrapped
in the source's `try/except`, whose handler returns `str(v)`; hence this
embedding is a total function. -/
def formatSingleDate (lenient : String → Option PyDate) (dateFmt dateLoc : Cell)
    (v : Cell) : String :=
  if pyIsNA v then ""
  else
    let parsed : Option PyDate :=
      match v with
      | .str s =>
        (match strptimeFirst s with
         | some d => some d
         | none => lenient s)
      | _ => pdToDatetimeNonString v
    match parsed with
    | none => pyStr v
    | some d =>
      match renderDate dateFmt dateLoc d with
      | some out => out
      | none => pyStr v

/-- `_format_date_column`: `series.apply(format_single_date)` — the
formatted cells are Python strings. -/
def formatDateColumn (lenient : String → Option PyDate) (dateFmt dateLoc : Cell)
    (vs : List Cell) : List Cell :=
  vs.map (fun v => Cell.str (formatSingleDate lenient dateFmt dateLoc v))

/-! ### Column Projector and Replace-Rule Engine (`ExcelProcessor`) -/

/-- One entry of `instructions['columns']` as built by
`_parse_columns_sheet_v8_1`; dict values that can be Python `None` are
`Cell.pynone`. -/
structure ColumnSpec where
  source_name : Cell
  target_name : Cell
  action : Cell
  value : Cell
  is_date : Bool
  date_format : Cell
  date_locale : Cell
deriving Repr, DecidableEq

/-- One entry of `instructions['replace_rules']`. -/
structure ReplaceRule where
  column : Cell
  find_value : Cell
  replace_value : Cell
  project_value : Cell
  project_value2 : Cell
deriving Repr, DecidableEq

/-- The `instructions` dict handed to `ExcelProcessor`. -/
structure Instructions where
  columns : List ColumnSpec
  replace_rules : List ReplaceRule
  email_template : List (Cell × Cell)
  formatting : List (Cell × Cell)
  email_vars : List Cell
deriving Repr, DecidableEq

/-- `self.processing_stats`. -/
structure Stats where
  processed_rows : Nat
  applied_rules : Nat
  created_columns : Nat
  formatted_date_columns : Nat
deriving DecidableEq, Repr

/-- The statistics dict as initialised by `ExcelProcessor.__init__`. -/
def initStats : Stats := ⟨0, 0, 0, 0⟩

/-- First label in an association list whose normalised textual form
equals `key`. -/
def findColNorm : List (Cell × List Cell) → String → Option Cell
  | [], _ => none
  | p :: ps, key => if pyNorm (pyStr p.1) == key then some p.1 else findColNorm ps key

/-- `_find_column_case_insensitive`: first column label whose
`str().lower().strip()` form equals that of the requested name. -/
def findColumnCaseInsensitive (f : Frame) (name : Cell) : Option Cell :=
  findColNorm f.cols (pyNorm (pyStr name))

/-- The body of the per-spec loop of `process_file` (lines 95–145): acts
on the accumulating output frame and statistics.  `df` is the input
table. -/
def processSpec (lenient : String → Option PyDate) (df : Frame)
    (st : Frame × Stats) (c : ColumnSpec) : Frame × Stats :=
  let result := st.1
  let stats := st.2
  if pyEqStr c.action "create" then
    let result :=
      if pyEqStr c.target_name "проект" then
        setScalar result c.target_name (.str "")
      else if pyEqStr c.target_name "Экспедитор" then
        setScalar result c.target_name
          (if truthy c.value then c.value else .str "ООО ТРАНСФОРА")
      else
        setScalar result c.target_name (if truthy c.value then c.value else .str "")
    (result, { stats with created_columns := stats.created_columns + 1 })
  else if pyEqStr c.action "copy" ∨ c.action = .pynone then
    match findColumnCaseInsensitive df c.source_name with
    | some src =>
      if truthy src then
        let vs := (colValues df src).getD []
        let result := setSeries result c.target_name vs
        if c.is_date then
          let cur := (colValues result c.target_name).getD []
          (setSeries result c.target_name
             (formatDateColumn lenient c.date_format c.date_locale cur),
           { stats with formatted_date_columns := stats.formatted_date_columns + 1 })
        else (result, stats)
      else (setScalar result c.target_name (.str ""), stats)
    | none => (setScalar result c.target_name (.str ""), stats)
  else (result, stats)

/-- Lines 91–147 of `process_file`: fold the column specs over the fresh
empty output frame. -/
def projectColumns (lenient : String → Option PyDate) (df : Frame)
    (stats : Stats) (specs : List ColumnSpec) : Frame × Stats :=
  specs.foldl (processSpec lenient df) (emptyFrame, stats)

/-- The row mask of a rule: `df[target_col].astype(str) == str(find_value)`. -/
def ruleMask (vals : List Cell) (find_value : Cell) : List Bool :=
  vals.map (fun v => pyStr v == pyStr find_value)

/-- The body of the per-rule loop of `_apply_replace_rules`. -/
def applyRule (st : Frame × Nat) (rule : ReplaceRule) : Frame × Nat :=
  let df := st.1
  let applied := st.2
  match findColumnCaseInsensitive df rule.column with
  | none => (df, applied)
  | some tc =>
    if ¬ truthy tc then (df, applied)
    else
      let mask := ruleMask ((colValues df tc).getD []) rule.find_value
      let affected := mask.count true
      if affected > 0 then
        let df := setMasked df tc mask rule.replace_value
        let df :=
          if truthy rule.project_value ∧ hasCol df (.str "проект") then
            setMasked df (.str "проект") mask rule.project_value
          else df
        let df :=
          if truthy rule.project_value2 ∧ hasCol df (.str "Заявка") then
            setMasked df (.str "Заявка") mask rule.project_value2
          else df
        (df, applied + 1)
      else (df, applied)

/-- `_apply_replace_rules`: sequential application, returning the frame
and the `rules_applied` counter. -/
def applyReplaceRules (df : Frame) (rules : List ReplaceRule) : Frame × Nat :=
  rules.foldl applyRule (df, 0)

/-- `process_file` after the input table has been read (the file I/O and
the rendering of the output workbook are external): project the columns,
apply the replace rules, and update the statistics dict carried on the
processor instance (`applied_rules` and `processed_rows` are assigned,
`created_columns` and `formatted_date_columns` were incremented by the
projection loop). -/
def processFile (lenient : String → Option PyDate) (stats : Stats)
    (inst : Instructions) (df : Frame) : Frame × Stats :=
  let proj := projectColumns lenient df stats inst.columns
  let rep := applyReplaceRules proj.1 inst.replace_rules
  (rep.1, { proj.2 with applied_rules := rep.2, processed_rows := rep.1.nrows })

/-! ### Instruction Parser (`OneDriveHandler`)

A worksheet is its list of rows (as produced by
`iter_rows(values_only=True)`, every row padded to the sheet's column
count), a workbook a list of named sheets.  A raised exception inside
`_parse_instruction_file_v8_1` is caught by its `except` handler, which
returns `None`; parsing functions therefore return `Option`, with `none`
both for a raised error and for the resulting hard failure. -/

/-- Python dict assignment: overwrite in place or append. -/
def dictSet (d : List (Cell × Cell)) (k v : Cell) : List (Cell × Cell) :=
  upsert d k v

def dictLookup (d : List (Cell × Cell)) (k : Cell) : Option Cell :=
  entryLookup d k

/-- Python `dict.get(k, default)`: the stored value — even when that
value is `None` — and the default only when the key is absent. -/
def pyDictGet (d : List (Cell × Cell)) (k : Cell) (dflt : Cell) : Cell :=
  (dictLookup d k).getD dflt

/-- `_parse_boolean_value`. -/
def parseBooleanValue : Cell → Bool
  | .pynone => false
  | .bool b => b
  | v =>
    let s := pyNorm (pyStr v)
    s == "true" || s == "1" || s == "да" || s == "yes" || s == "y"

/-- The header mapping built by `_parse_columns_sheet_v8_1`. -/
structure HeaderMapping where
  source_name : Option Nat := none
  target_name : Option Nat := none
  action : Option Nat := none
  value : Option Nat := none
  date_format : Option Nat := none
  is_date : Option Nat := none
  date_locale : Option Nat := none

/-- The `elif` keyword cascade over a normalised header (later headers
overwrite earlier matches of the same field). -/
def headerStep (m : HeaderMapping) (ih : Nat × String) : HeaderMapping :=
  let i := ih.1
  let h := ih.2
  if strHasSub "source" h ∨ h = "source_name" then { m with source_name := some i }
  else if strHasSub "target" h ∨ h = "target_name" then { m with target_name := some i }
  else if h = "action" then { m with action := some i }
  else if h = "value" then { m with value := some i }
  else if strHasSub "date" h ∧ strHasSub "format" h then { m with date_format := some i }
  else if h = "is_date" ∨ (strHasSub "date" h ∧ (strHasSub "is" h ∨ strHasSub "flag" h)) then
    { m with is_date := some i }
  else if strHasSub "locale" h ∨ (strHasSub "date" h ∧ strHasSub "locale" h) then
    { m with date_locale := some i }
  else m

def buildHeaderMapping (firstRow : List Cell) : HeaderMapping :=
  (firstRow.enum.filterMap (fun ih =>
    if truthy ih.2 then some (ih.1, pyNorm (pyStr ih.2)) else none)).foldl
    headerStep {}

/-- One data row of the `columns` sheet: outer `none` is a raised
`IndexError` (the `len(row) > 1/2/3` guards do not guard the mapped
header positions), `some none` a skipped row. -/
def parseColumnsRow (m : HeaderMapping) (row : List Cell) :
    Option (Option ColumnSpec) := do
  if row = [] then return none
  let src ← row.get? (m.source_name.getD 0)
  if ¬ truthy src then return none
  let target ←
    if row.length > 1 then do
      let t ← row.get? (m.target_name.getD 1)
      pure (if truthy t then t else src)
    else pure src
  let action ←
    if row.length > 2 then do
      let a ← row.get? (m.action.getD 2)
      pure (if truthy a then a else Cell.str "copy")
    else pure (Cell.str "copy")
  let value ←
    if row.length > 3 then do
      let v ← row.get? (m.value.getD 3)
      pure (if truthy v then v else Cell.pynone)
    else pure Cell.pynone
  let isDateFlag :=
    match m.is_date with
    | some idx =>
      parseBooleanValue (if row.length > idx then row.getD idx .pynone else .pynone)
    | none => false
  let dateFmt :=
    match m.date_format with
    | some idx =>
      let v := if row.length > idx then row.getD idx .pynone else .pynone
      if truthy v then v else Cell.str "DD.MM.YYYY"
    | none => Cell.str "DD.MM.YYYY"
  let dateLoc :=
    match m.date_locale with
    | some idx =>
      let v := if row.length > idx then row.getD idx .pynone else .pynone
      if truthy v then v else Cell.str "ru"
    | none => Cell.str "ru"
  return some ⟨src, target, action, value, isDateFlag, dateFmt, dateLoc⟩

/-- `_parse_columns_sheet_v8_1`: `list(iter_rows(min_row=1, max_row=1))[0]`
raises on a sheet with no rows; data rows are the remainder. -/
def parseColumnsStep (m : HeaderMapping) (acc : List ColumnSpec)
    (row : List Cell) : Option (List ColumnSpec) := do
  match (← parseColumnsRow m row) with
  | some c => pure (acc ++ [c])
  | none => pure acc

def parseColumnsSheet (sheet : List (List Cell)) : Option (List ColumnSpec) := do
  let firstRow ← sheet.head?
  (sheet.drop 1).foldlM (parseColumnsStep (buildHeaderMapping firstRow)) []

/-- One data row of the `replace` sheet: `row[0] and row[1] and row[2]`
short-circuits, so a falsy earlier cell skips the row, while a missing
later cell raises `IndexError` (`none`). -/
def parseReplaceRow (row : List Cell) : Option (Option ReplaceRule) := do
  let c0 ← row.get? 0
  if ¬ truthy c0 then return none
  let c1 ← row.get? 1
  if ¬ truthy c1 then return none
  let c2 ← row.get? 2
  if ¬ truthy c2 then return none
  let pv := if row.length > 3 ∧ truthy (row.getD 3 .pynone) then row.getD 3 .pynone else .pynone
  let pv2 := if row.length > 4 ∧ truthy (row.getD 4 .pynone) then row.getD 4 .pynone else .pynone
  return some ⟨c0, c1, c2, pv, pv2⟩

def parseReplaceStep (acc : List ReplaceRule) (row : List Cell) :
    Option (List ReplaceRule) := do
  match (← parseReplaceRow row) with
  | some r => pure (acc ++ [r])
  | none => pure acc

/-- `_parse_replace_sheet`. -/
def parseReplaceSheet (sheet : List (List Cell)) : Option (List ReplaceRule) :=
  (sheet.drop 1).foldlM parseReplaceStep []

def pySplitComma (s : String) : List String := s.splitOn ","

/-- `_parse_email_sheet_v8`, returning the parameter dict and the split
`variables` list.  In the source the split list itself is stored under
`email_template['variables']` (a Python list value, kept here as the raw
cell, since no consumer reads it) and the top-level `variables` slot of
the instructions dict is never updated; `.split(',')` on a non-string
value raises (`none`). -/
def parseEmailStep (acc : List (Cell × Cell) × List Cell) (row : List Cell) :
    Option (List (Cell × Cell) × List Cell) := do
  let c0 ← row.get? 0
  if ¬ truthy c0 then return acc
  let c1 ← row.get? 1
  if ¬ truthy c1 then return acc
  if pyEqStr c0 "variables" then
    match c1 with
    | .str s =>
      pure (dictSet acc.1 c0 c1, (pySplitComma s).map (fun v => Cell.str (pyStrip v)))
    | _ => none
  else
    pure (dictSet acc.1 c0 c1, acc.2)

def parseEmailSheet (sheet : List (List Cell)) :
    Option (List (Cell × Cell) × List Cell) :=
  (sheet.drop 1).foldlM parseEmailStep ([], [])

/-- An ASCII hexadecimal digit (`0-9`, `a-f`, `A-F`; the exotic unicode
digit forms Python's parser also admits are not modelled). -/
def isHexDigitCh (c : Char) : Bool :=
  (48 ≤ c.toNat ∧ c.toNat ≤ 57) ∨ (97 ≤ c.toNat ∧ c.toNat ≤ 102)
    ∨ (65 ≤ c.toNat ∧ c.toNat ≤ 70)

/-- Hex digits after the first one: single underscores allowed between
digits. -/
def hexTail : List Char → Bool
  | [] => true
  | c :: rest =>
    if c = '_' then
      (match rest with
       | d :: rest2 => isHexDigitCh d && hexTail rest2
       | [] => false)
    else isHexDigitCh c && hexTail rest

def hexBody : List Char → Bool
  | c :: rest => isHexDigitCh c && hexTail rest
  | [] => false

def afterPrefix16 : List Char → Bool
  | c0 :: c1 :: rest =>
    if c0 = '0' ∧ (c1 = 'x' ∨ c1 = 'X') then
      (match rest with
       | c2 :: r2 => if c2 = '_' then hexBody r2 else hexBody (c2 :: r2)
       | [] => hexBody [])
    else hexBody (c0 :: c1 :: rest)
  | cs => hexBody cs

def afterSign16 : List Char → Bool
  | c :: rest =>
    if c = '+' ∨ c = '-' then afterPrefix16 rest else afterPrefix16 (c :: rest)
  | [] => afterPrefix16 []

/-- Python `int(s, 16)` succeeds: optional surrounding whitespace, an
optional sign, an optional `0x`/`0X` prefix (itself optionally followed
by one underscore), then hex digits separated by single underscores. -/
def pyIntParsable16 (s : String) : Bool :=
  afterSign16 ((s.toList.dropWhile isPyWs).reverse.dropWhile isPyWs).reverse

/-- `str.replace('#', '')`: drop every occurrence of `#`. -/
def removeHashes (s : String) : String :=
  String.mk (s.toList.filter (fun c => c ≠ '#'))

/-- `_validate_color_value`.  Note that `str.replace('#', '')` removes
every `#`, not only a leading one, and that acceptance is decided by
`int(color_str, 16)`. -/
def validateColorValue (color_value : Cell) : Cell :=
  if ¬ truthy color_value then .pynone
  else
    let color_str := pyUpper (removeHashes (pyStr color_value))
    if color_str.length = 6 then
      (if pyIntParsable16 color_str then .str color_str else .pynone)
    else .pynone

/-- `_parse_formatting_sheet_v8`: color-named parameters run through
`_validate_color_value` (whose `None` result is stored in the dict);
`param_name.lower()` raises on a non-string name. -/
def parseFormattingStep (acc : List (Cell × Cell)) (row : List Cell) :
    Option (List (Cell × Cell)) := do
  let c0 ← row.get? 0
  if ¬ truthy c0 then return acc
  let c1 ← row.get? 1
  if ¬ truthy c1 then return acc
  match c0 with
  | .str ns =>
    let v := if strHasSub "color" (pyLower ns) then validateColorValue c1 else c1
    pure (dictSet acc c0 v)
  | _ => none

def parseFormattingSheet (sheet : List (List Cell)) :
    Option (List (Cell × Cell)) :=
  (sheet.drop 1).foldlM parseFormattingStep []

/-- `_get_default_formatting`. -/
def defaultFormatting : List (Cell × Cell) :=
  [(.str "font_name", .str "Calibri"), (.str "font_size", .str "10"),
   (.str "header_background_color", .str "DDDDDD"),
   (.str "header_text_color", .str "000000"),
   (.str "cell_background_color", .str "FFFFFF")]

/-- `_validate_instructions_v8_1` only logs warnings, with one exception:
`var in template` raises `TypeError` when the `body_template` value is
not a string. -/
def validateInstructions (inst : Instructions) : Option Unit :=
  match dictLookup inst.email_template (.str "body_template") with
  | some (.str _) => some ()
  | some _ => none
  | none => some ()

def hasSheet (wb : List (String × List (List Cell))) (name : String) : Bool :=
  wb.any (fun p => p.1 == name)

def getSheet (wb : List (String × List (List Cell))) (name : String) :
    List (List Cell) :=
  ((wb.find? (fun p => p.1 == name)).map Prod.snd).getD []

/-- `_parse_instruction_file_v8_1`: recognised sheets are parsed when
present (absence is not an error; absent `formatting` falls back to the
defaults), any raised error is caught and turned into `None`. -/
def parseInstructionFile (wb : List (String × List (List Cell))) :
    Option Instructions := do
  let cols ← if hasSheet wb "columns" then parseColumnsSheet (getSheet wb "columns") else pure []
  let rules ← if hasSheet wb "replace" then parseReplaceSheet (getSheet wb "replace") else pure []
  let email ← if hasSheet wb "email" then parseEmailSheet (getSheet wb "email") else pure ([], [])
  let fmtg ← if hasSheet wb "formatting" then parseFormattingSheet (getSheet wb "formatting")
             else pure defaultFormatting
  let inst : Instructions := ⟨cols, rules, email.1, fmtg, email.2⟩
  let _ ← validateInstructions inst
  return inst

/-- `get_processing_instructions`: the download / `load_workbook` step is
external; `none` input models an unreadable byte buffer (the raised
error is caught and `None` returned), and a parse failure also surfaces
as `None`. -/
def getProcessingInstructions (wb : Option (List (String × List (List Cell)))) :
    Option Instructions :=
  wb.bind parseInstructionFile

/-! ### Specification-side definitions

These transcribe the wording of the specification (not the code); the
claim theorems relate them to the embedded code above. -/

/-- The actions the data model admits (`copy`, `create`; an unset action
reaches `process_file` only as `'copy'`, but `None` is accepted there
too). -/
def ValidAction (c : ColumnSpec) : Prop :=
  pyEqStr c.action "create" = true ∨ pyEqStr c.action "copy" = true ∨ c.action = Cell.pynone

def IsCopySpec (c : ColumnSpec) : Prop :=
  pyEqStr c.action "copy" = true ∨ c.action = Cell.pynone

/-- The spec's copy action resolves a truthy-labelled source column. -/
def copyResolves (df : Frame) (c : ColumnSpec) : Bool :=
  match findColumnCaseInsensitive df c.source_name with
  | some s => truthy s
  | none => false

/-- A spec that establishes the output table's row index: a copy action
whose source column resolves. -/
def Establishes (df : Frame) (c : ColumnSpec) : Prop :=
  IsCopySpec c ∧ copyResolves df c = true

/-- Append a target name with duplicate merging (a duplicate keeps the
first occurrence's position). -/
def addName (ns : List Cell) (t : Cell) : List Cell :=
  if ns.any (fun n => cellKeyEq n t) then ns else ns ++ [t]

/-- Spec-side: the output column labels — one per distinct targetName,
in first-occurrence order. -/
def targetNamesDedup (specs : List ColumnSpec) : List Cell :=
  specs.foldl (fun ns c => addName ns c.target_name) []

/-- Spec-side: the last ColumnSpec targeting a label (last-write-wins). -/
def lastSpecFor : List ColumnSpec → Cell → Option ColumnSpec
  | [], _ => none
  | c :: cs, T =>
    match lastSpecFor cs T with
    | some d => some d
    | none => if cellKeyEq c.target_name T then some c else none

/-- Spec-side: the fill value of an `action = create` spec ("проект" is
reserved empty, "Экспедитор" defaults to the company name, anything else
gets `fixedValue` or the empty string). -/
def createFill (c : ColumnSpec) : Cell :=
  if pyEqStr c.target_name "проект" then .str ""
  else if pyEqStr c.target_name "Экспедитор" then
    (if truthy c.value then c.value else .str "ООО ТРАНСФОРА")
  else (if truthy c.value then c.value else .str "")

/-- Spec-side: the column a ColumnSpec contributes once the output row
count equals the input's. -/
def expectedContent (lenient : String → Option PyDate) (df : Frame)
    (c : ColumnSpec) : List Cell :=
  if pyEqStr c.action "create" then List.replicate df.nrows (createFill c)
  else
    match findColumnCaseInsensitive df c.source_name with
    | some src =>
      if truthy src then
        (if c.is_date then
          formatDateColumn lenient c.date_format c.date_locale ((colValues df src).getD [])
        else (colValues df src).getD [])
      else List.replicate df.nrows (.str "")
    | none => List.replicate df.nrows (.str "")

/-- Spec-side: a replace rule resolves its column and matches at least
one row of the current table. -/
def ruleMatched (df : Frame) (r : ReplaceRule) : Bool :=
  match findColumnCaseInsensitive df r.column with
  | some tc =>
    truthy tc && 0 < (ruleMask ((colValues df tc).getD []) r.find_value).count true
  | none => false

/-- Spec-side: the number of rules that matched at least one row, the
rules being applied sequentially in document order. -/
def specAppliedCount : Frame → List ReplaceRule → Nat
  | _, [] => 0
  | df, r :: rs =>
    (if ruleMatched df r then 1 else 0) + specAppliedCount (applyRule (df, 0) r).1 rs

/-- Spec-side: exactly six hexadecimal digits. -/
def isSixHexDigits (s : String) : Bool :=
  s.length = 6 && s.toList.all isHexDigitCh

/-- Spec-side (claim C10): a replace-sheet data row yields a rule iff its
first three cells are truthy, the project values set only when the
fourth / fifth cell is present and truthy. -/
def specReplaceRow (row : List Cell) : Option ReplaceRule :=
  if truthy (row.getD 0 .pynone) ∧ truthy (row.getD 1 .pynone) ∧ truthy (row.getD 2 .pynone) then
    some ⟨row.getD 0 .pynone, row.getD 1 .pynone, row.getD 2 .pynone,
      (if row.length > 3 ∧ truthy (row.getD 3 .pynone) then row.getD 3 .pynone else .pynone),
      (if row.length > 4 ∧ truthy (row.getD 4 .pynone) then row.getD 4 .pynone else .pynone)⟩
  else none

/-- Spec-side: the number of create-action specs. -/
def countCreates (specs : List ColumnSpec) : Nat :=
  (specs.filter (fun c => pyEqStr c.action "create")).length

/-- Spec-side: a spec that triggers date formatting — a copy action whose
source resolves and whose `is_date` flag is set. -/
def specFormatsDate (df : Frame) (c : ColumnSpec) : Bool :=
  !(pyEqStr c.action "create") && (pyEqStr c.action "copy" || c.action == Cell.pynone)
    && copyResolves df c && c.is_date

/-- Spec-side: the number of date-formatted columns. -/
def countDates (df : Frame) (specs : List ColumnSpec) : Nat :=
  (specs.filter (specFormatsDate df)).length

/-- The trivial instantiation of the abstracted lenient date parser, used
by concrete witnesses (pandas would return `NaT` on these inputs). -/
def noLenient : String → Option PyDate := fun _ => none

instance (c : ColumnSpec) : Decidable (ValidAction c) := by
  unfold ValidAction
  infer_instance

instance (c : ColumnSpec) : Decidable (IsCopySpec c) := by
  unfold IsCopySpec
  infer_instance

instance (df : Frame) (c : ColumnSpec) : Decidable (Establishes df c) := by
  unfold Establishes IsCopySpec
  infer_instance

/-! ### Lemmas about labelled association lists -/

theorem cellKeyEq_refl (a : Cell) : cellKeyEq a a = true := by
  simp [cellKeyEq]

theorem cellKeyEq_symm {a b : Cell} (h : cellKeyEq a b = true) :
    cellKeyEq b a = true := by
  simp only [cellKeyEq, beq_iff_eq] at *
  exact h.symm

theorem cellKeyEq_trans {a b c : Cell} (h1 : cellKeyEq a b = true)
    (h2 : cellKeyEq b c = true) : cellKeyEq a c = true := by
  simp only [cellKeyEq, beq_iff_eq] at *
  exact h1.trans h2


theorem boolFalse {b : Bool} (h : ¬ b = true) : b = false := by
  cases b
  · rfl
  · exact absurd rfl h

theorem keys_mapVals {α : Type} (k : Cell) (f : α → α) (d : List (Cell × α)) :
    (mapVals k f d).map Prod.fst = d.map Prod.fst := by
  induction d with
  | nil => rfl
  | cons p ps ih =>
    by_cases h : cellKeyEq p.1 k = true <;> simp [mapVals, h, ih]

theorem entryLookup_mapVals_eq {α : Type} {T k : Cell} (h : cellKeyEq T k = true)
    (f : α → α) (d : List (Cell × α)) :
    entryLookup (mapVals k f d) T = (entryLookup d T).map f := by
  induction d with
  | nil => rfl
  | cons p ps ih =>
    by_cases hp : cellKeyEq p.1 k = true
    · have hpT : cellKeyEq p.1 T = true := cellKeyEq_trans hp (cellKeyEq_symm h)
      simp [mapVals, entryLookup, hp, hpT]
    · have hpT : cellKeyEq p.1 T = false := by
        cases hcb : cellKeyEq p.1 T with
        | false => rfl
        | true => exact absurd (cellKeyEq_trans hcb h) hp
      simp [mapVals, entryLookup, hp, hpT, ih]

theorem entryLookup_mapVals_ne {α : Type} {T k : Cell} (h : cellKeyEq T k = false)
    (f : α → α) (d : List (Cell × α)) :
    entryLookup (mapVals k f d) T = entryLookup d T := by
  induction d with
  | nil => rfl
  | cons p ps ih =>
    by_cases hp : cellKeyEq p.1 k = true
    · have hpT : cellKeyEq p.1 T = false := by
        cases hcb : cellKeyEq p.1 T with
        | false => rfl
        | true =>
          have : cellKeyEq T k = true := cellKeyEq_trans (cellKeyEq_symm hcb) hp
          rw [this] at h
          exact absurd h (by simp)
      simp [mapVals, entryLookup, hp, hpT, ih]
    · by_cases hq : cellKeyEq p.1 T = true <;> simp [mapVals, entryLookup, hp, hq, ih]

theorem anyKey_false_lookup {α : Type} {k T : Cell} (h : cellKeyEq T k = true)
    {d : List (Cell × α)} (hn : anyKey k d = false) : entryLookup d T = none := by
  induction d with
  | nil => rfl
  | cons p ps ih =>
    simp only [anyKey, Bool.or_eq_false_iff] at hn
    have hpT : cellKeyEq p.1 T = false := by
      cases hcb : cellKeyEq p.1 T with
      | false => rfl
      | true =>
        have : cellKeyEq p.1 k = true := cellKeyEq_trans hcb h
        rw [this] at hn
        exact absurd hn.1 (by simp)
    simp [entryLookup, hpT, ih hn.2]

theorem anyKey_true_lookup_isSome {α : Type} {k T : Cell} (h : cellKeyEq T k = true)
    {d : List (Cell × α)} (hy : anyKey k d = true) :
    (entryLookup d T).isSome = true := by
  induction d with
  | nil => simp [anyKey] at hy
  | cons p ps ih =>
    by_cases hp : cellKeyEq p.1 k = true
    · have hpT : cellKeyEq p.1 T = true := cellKeyEq_trans hp (cellKeyEq_symm h)
      simp [entryLookup, hpT]
    · have hy2 : anyKey k ps = true := by
        simp only [anyKey, Bool.or_eq_true] at hy
        rcases hy with hy | hy
        · exact absurd hy hp
        · exact hy
      by_cases hq : cellKeyEq p.1 T = true
      · simp [entryLookup, hq]
      · simp only [entryLookup, hq, if_neg, ite_false]
        simpa [hq] using ih hy2

theorem entryLookup_append {α : Type} (d1 d2 : List (Cell × α)) (T : Cell) :
    entryLookup (d1 ++ d2) T =
      match entryLookup d1 T with
      | some v => some v
      | none => entryLookup d2 T := by
  induction d1 with
  | nil => simp [entryLookup]
  | cons p ps ih =>
    by_cases hq : cellKeyEq p.1 T = true <;> simp [entryLookup, hq, ih]

/-- The single store/lookup law: storing under `k` makes every key-equal
lookup see the new value and leaves other lookups unchanged. -/
theorem entryLookup_upsert {α : Type} (d : List (Cell × α)) (k : Cell) (v : α)
    (T : Cell) :
    entryLookup (upsert d k v) T =
      if cellKeyEq T k = true then some v else entryLookup d T := by
  unfold upsert
  by_cases hy : anyKey k d = true
  · by_cases ht : cellKeyEq T k = true
    · rw [if_pos hy, if_pos ht, entryLookup_mapVals_eq ht]
      obtain ⟨w, hw⟩ := Option.isSome_iff_exists.mp (anyKey_true_lookup_isSome ht hy)
      rw [hw]
      rfl
    · rw [if_pos hy, if_neg ht, entryLookup_mapVals_ne (boolFalse ht)]
  · rw [if_neg hy, entryLookup_append]
    by_cases ht : cellKeyEq T k = true
    · rw [anyKey_false_lookup ht (boolFalse hy), if_pos ht]
      simp [entryLookup, cellKeyEq_symm ht]
    · have htk : cellKeyEq k T = false := by
        cases hcb : cellKeyEq k T with
        | false => rfl
        | true => exact absurd (cellKeyEq_symm hcb) ht
      rw [if_neg ht]
      cases h2 : entryLookup d T <;> simp [entryLookup, htk]

theorem keys_upsert {α : Type} (d : List (Cell × α)) (k : Cell) (v : α) :
    (upsert d k v).map Prod.fst =
      if anyKey k d = true then d.map Prod.fst else d.map Prod.fst ++ [k] := by
  unfold upsert
  by_cases hy : anyKey k d = true <;> simp [hy, keys_mapVals]

theorem anyKey_eq_any_keys {α : Type} (k : Cell) (d : List (Cell × α)) :
    anyKey k d = (d.map Prod.fst).any (fun n => cellKeyEq n k) := by
  induction d with
  | nil => rfl
  | cons p ps ih => simp [anyKey, ih]

theorem anyKey_map_snd {α : Type} (k : Cell) (g : Cell × α → α) (d : List (Cell × α)) :
    anyKey k (d.map (fun p => (p.1, g p))) = anyKey k d := by
  induction d with
  | nil => rfl
  | cons p ps ih => simp [anyKey, ih]

theorem entryLookup_map_snd {α : Type} (g : α → α) (d : List (Cell × α)) (T : Cell) :
    entryLookup (d.map (fun p => (p.1, g p.2))) T = (entryLookup d T).map g := by
  induction d with
  | nil => rfl
  | cons p ps ih =>
    by_cases hq : cellKeyEq p.1 T = true <;> simp [entryLookup, hq, ih]

theorem entryLookup_some_mem {α : Type} {d : List (Cell × α)} {T : Cell} {w : α}
    (h : entryLookup d T = some w) : ∃ p ∈ d, p.2 = w := by
  induction d with
  | nil => simp [entryLookup] at h
  | cons p ps ih =>
    by_cases hq : cellKeyEq p.1 T = true
    · simp only [entryLookup, hq, if_true] at h
      exact ⟨p, List.mem_cons_self _ _, by injection h⟩
    · simp only [entryLookup, hq, if_false, ite_false] at h
      obtain ⟨q, hq1, hq2⟩ := ih (by simpa [hq] using h)
      exact ⟨q, List.mem_cons_of_mem _ hq1, hq2⟩

theorem mem_anyKey {α : Type} {d : List (Cell × α)} {p : Cell × α} (h : p ∈ d) :
    anyKey p.1 d = true := by
  induction d with
  | nil => simp at h
  | cons q qs ih =>
    rcases List.mem_cons.mp h with h | h
    · subst h
      simp [anyKey, cellKeyEq_refl]
    · simp [anyKey, ih h]

/-! ### Lemmas about the frame operations -/

theorem mapVals_WF {n : Nat} {k : Cell} {g : List Cell → List Cell}
    (hg : ∀ vs, vs.length = n → (g vs).length = n) :
    ∀ cols : List (Cell × List Cell), (∀ p ∈ cols, (p : Cell × List Cell).2.length = n) →
      ∀ p ∈ mapVals k g cols, (p : Cell × List Cell).2.length = n := by
  intro cols
  induction cols with
  | nil => intro _ p hp; simp [mapVals] at hp
  | cons q qs ih =>
    intro hwf p hp
    simp only [mapVals] at hp
    rcases List.mem_cons.mp hp with h | h
    · by_cases hq : cellKeyEq q.1 k = true
      · rw [if_pos hq] at h
        rw [h]
        exact hg q.2 (hwf q (List.mem_cons_self _ _))
      · rw [if_neg hq] at h
        rw [h]
        exact hwf q (List.mem_cons_self _ _)
    · exact ih (fun r hr => hwf r (List.mem_cons_of_mem _ hr)) p h

theorem upsert_WF {cols : List (Cell × List Cell)} {n : Nat}
    (hwf : ∀ p ∈ cols, (p : Cell × List Cell).2.length = n) {k : Cell}
    {vs : List Cell} (hv : vs.length = n) :
    ∀ p ∈ upsert cols k vs, (p : Cell × List Cell).2.length = n := by
  unfold upsert
  by_cases hy : anyKey k cols = true
  · rw [if_pos hy]
    exact mapVals_WF (fun _ _ => hv) cols hwf
  · rw [if_neg hy]
    intro p hp
    rcases List.mem_append.mp hp with h | h
    · exact hwf p h
    · simp at h
      subst h
      exact hv

theorem reindexTo_length (vs : List Cell) (n : Nat) : (reindexTo vs n).length = n := by
  simp [reindexTo]

theorem reindexTo_self (vs : List Cell) : reindexTo vs vs.length = vs := by
  apply List.ext_get
  · simp [reindexTo]
  · intro i h1 h2
    simp [reindexTo, List.getD_eq_getElem?_getD, List.getElem?_eq_getElem h2]

theorem setScalar_nrows (f : Frame) (t v : Cell) : (setScalar f t v).nrows = f.nrows := rfl

theorem setMasked_nrows (f : Frame) (t : Cell) (mask : List Bool) (v : Cell) :
    (setMasked f t mask v).nrows = f.nrows := rfl

theorem setScalar_WF {f : Frame} (h : f.WF) (t v : Cell) : (setScalar f t v).WF :=
  upsert_WF h (List.length_replicate _ _)

theorem setSeries_adopt {f : Frame} {vs : List Cell} (h0 : f.nrows = 0)
    (hne : vs ≠ []) (t : Cell) :
    setSeries f t vs =
      ⟨vs.length,
       upsert (f.cols.map (fun p => (p.1, List.replicate vs.length Cell.nan))) t vs⟩ := by
  unfold setSeries
  rw [if_pos ⟨h0, hne⟩]

theorem setSeries_keep {f : Frame} {vs : List Cell} (h : ¬(f.nrows = 0 ∧ vs ≠ []))
    (t : Cell) :
    setSeries f t vs = ⟨f.nrows, upsert f.cols t (reindexTo vs f.nrows)⟩ := by
  unfold setSeries
  rw [if_neg h]

theorem setSeries_WF {f : Frame} (h : f.WF) (t : Cell) (vs : List Cell) :
    (setSeries f t vs).WF := by
  by_cases hc : f.nrows = 0 ∧ vs ≠ []
  · rw [setSeries_adopt hc.1 hc.2]
    intro p hp
    refine upsert_WF ?_ rfl p hp
    intro q hq
    obtain ⟨r, _, hr⟩ := List.mem_map.mp hq
    rw [← hr]
    exact List.length_replicate _ _
  · rw [setSeries_keep hc]
    exact upsert_WF h (reindexTo_length vs f.nrows)

theorem setMasked_WF {f : Frame} (h : f.WF) {t : Cell} {mask : List Bool} {v : Cell}
    (hm : mask.length = f.nrows) : (setMasked f t mask v).WF := by
  intro p hp
  refine mapVals_WF ?_ f.cols h p hp
  intro vs hvs
  simp [List.length_zipWith, hm, hvs]

theorem colValues_setScalar (f : Frame) (t v T : Cell) :
    colValues (setScalar f t v) T =
      if cellKeyEq T t = true then some (List.replicate f.nrows v) else colValues f T :=
  entryLookup_upsert _ _ _ _

theorem colValues_setSeries_adopt {f : Frame} {vs : List Cell} (h0 : f.nrows = 0)
    (hne : vs ≠ []) (t T : Cell) :
    colValues (setSeries f t vs) T =
      if cellKeyEq T t = true then some vs
      else (colValues f T).map (fun _ => List.replicate vs.length Cell.nan) := by
  rw [setSeries_adopt h0 hne]
  unfold colValues
  rw [entryLookup_upsert]
  by_cases ht : cellKeyEq T t = true
  · rw [if_pos ht, if_pos ht]
  · rw [if_neg ht, if_neg ht]
    exact entryLookup_map_snd (fun _ => List.replicate vs.length Cell.nan) f.cols T

theorem colValues_setSeries_keep {f : Frame} {vs : List Cell}
    (h : ¬(f.nrows = 0 ∧ vs ≠ [])) (t T : Cell) :
    colValues (setSeries f t vs) T =
      if cellKeyEq T t = true then some (reindexTo vs f.nrows) else colValues f T := by
  rw [setSeries_keep h]
  exact entryLookup_upsert _ _ _ _

theorem colValues_setMasked (f : Frame) (t : Cell) (mask : List Bool) (v T : Cell) :
    colValues (setMasked f t mask v) T =
      if cellKeyEq T t = true then
        (colValues f T).map
          (fun vals => List.zipWith (fun b old => if b then v else old) mask vals)
      else colValues f T := by
  unfold setMasked colValues
  by_cases ht : cellKeyEq T t = true
  · rw [if_pos ht]
    exact entryLookup_mapVals_eq ht _ _
  · rw [if_neg ht]
    exact entryLookup_mapVals_ne (boolFalse ht) _ _

theorem colNames_setScalar (f : Frame) (t v : Cell) :
    colNames (setScalar f t v) = addName (colNames f) t := by
  unfold colNames setScalar addName
  rw [keys_upsert, anyKey_eq_any_keys]

theorem colNames_setSeries (f : Frame) (t : Cell) (vs : List Cell) :
    colNames (setSeries f t vs) = addName (colNames f) t := by
  by_cases hc : f.nrows = 0 ∧ vs ≠ []
  · rw [setSeries_adopt hc.1 hc.2]
    unfold colNames addName
    rw [keys_upsert]
    have hks : (f.cols.map (fun p => (p.1, List.replicate vs.length Cell.nan))).map Prod.fst
        = f.cols.map Prod.fst := by
      simp [List.map_map]
    have hak : anyKey t (f.cols.map (fun p => (p.1, List.replicate vs.length Cell.nan)))
        = anyKey t f.cols :=
      anyKey_map_snd t _ f.cols
    rw [hks, hak, anyKey_eq_any_keys]
  · rw [setSeries_keep hc]
    unfold colNames addName
    rw [keys_upsert, anyKey_eq_any_keys]

theorem colNames_setMasked (f : Frame) (t : Cell) (mask : List Bool) (v : Cell) :
    colNames (setMasked f t mask v) = colNames f :=
  keys_mapVals _ _ _

theorem findColNorm_mem {cols : List (Cell × List Cell)} {key : String} {tc : Cell}
    (h : findColNorm cols key = some tc) : ∃ vals, (tc, vals) ∈ cols := by
  induction cols with
  | nil => simp [findColNorm] at h
  | cons p ps ih =>
    by_cases hq : (pyNorm (pyStr p.1) == key) = true
    · simp only [findColNorm, hq, if_true] at h
      exact ⟨p.2, by injection h with h2; rw [← h2]; exact List.mem_cons_self _ _⟩
    · simp only [findColNorm, hq, if_false, ite_false] at h
      obtain ⟨vals, hv⟩ := ih (by simpa [hq] using h)
      exact ⟨vals, List.mem_cons_of_mem _ hv⟩

/-- A column label delivered by `_find_column_case_insensitive` can be
looked up, and under well-formedness its values have one entry per row. -/
theorem findCol_colValues {f : Frame} {name tc : Cell}
    (h : findColumnCaseInsensitive f name = some tc) :
    ∃ vals, colValues f tc = some vals ∧ (f.WF → vals.length = f.nrows) := by
  obtain ⟨vals0, hmem⟩ := findColNorm_mem h
  have hsome : (entryLookup f.cols tc).isSome = true :=
    anyKey_true_lookup_isSome (cellKeyEq_refl tc) (mem_anyKey (p := (tc, vals0)) hmem)
  obtain ⟨w, hw⟩ := Option.isSome_iff_exists.mp hsome
  refine ⟨w, hw, fun hwf => ?_⟩
  obtain ⟨p, hp, hp2⟩ := entryLookup_some_mem hw
  rw [← hp2]
  exact hwf p hp

theorem cellKeyEq_comm (a b : Cell) : cellKeyEq a b = cellKeyEq b a := by
  simp [cellKeyEq, beq_iff_eq, eq_comm]

theorem addName_idem (ns : List Cell) (t : Cell) :
    addName (addName ns t) t = addName ns t := by
  by_cases h : ns.any (fun n => cellKeyEq n t) = true
  · have hin : addName ns t = ns := by unfold addName; rw [if_pos h]
    rw [hin]
    unfold addName
    rw [if_pos h]
  · have hin : addName ns t = ns ++ [t] := by unfold addName; rw [if_neg h]
    rw [hin]
    unfold addName
    rw [if_pos (by simp [cellKeyEq_refl])]

/-! ### Lemmas about `processSpec` (the per-ColumnSpec loop body) -/

theorem processSpec_create {c : ColumnSpec} (h : pyEqStr c.action "create" = true)
    (lenient : String → Option PyDate) (df : Frame) (r : Frame) (s : Stats) :
    processSpec lenient df (r, s) c =
      (setScalar r c.target_name (createFill c),
       { s with created_columns := s.created_columns + 1 }) := by
  unfold processSpec createFill
  simp only [h, if_true]
  by_cases hA : pyEqStr c.target_name "проект" = true
  · simp [hA]
  · by_cases hB : pyEqStr c.target_name "Экспедитор" = true <;> simp [hA, hB]

theorem processSpec_copy_found {c : ColumnSpec} {df : Frame} {src : Cell}
    (hnc : ¬ pyEqStr c.action "create" = true)
    (hcp : pyEqStr c.action "copy" = true ∨ c.action = Cell.pynone)
    (hf : findColumnCaseInsensitive df c.source_name = some src)
    (ht : truthy src = true) (hd : c.is_date = false)
    (lenient : String → Option PyDate) (r : Frame) (s : Stats) :
    processSpec lenient df (r, s) c =
      (setSeries r c.target_name ((colValues df src).getD []), s) := by
  unfold processSpec
  simp only [hnc, if_false, ite_false, hcp, if_pos, hf, ht, hd]
  simp [hnc, hcp]

theorem processSpec_copy_found_date {c : ColumnSpec} {df : Frame} {src : Cell}
    (hnc : ¬ pyEqStr c.action "create" = true)
    (hcp : pyEqStr c.action "copy" = true ∨ c.action = Cell.pynone)
    (hf : findColumnCaseInsensitive df c.source_name = some src)
    (ht : truthy src = true) (hd : c.is_date = true)
    (lenient : String → Option PyDate) (r : Frame) (s : Stats) :
    processSpec lenient df (r, s) c =
      (setSeries (setSeries r c.target_name ((colValues df src).getD []))
         c.target_name
         (formatDateColumn lenient c.date_format c.date_locale
           ((colValues (setSeries r c.target_name ((colValues df src).getD []))
              c.target_name).getD [])),
       { s with formatted_date_columns := s.formatted_date_columns + 1 }) := by
  unfold processSpec
  simp [hnc, hcp, hf, ht, hd]

theorem processSpec_copy_miss {c : ColumnSpec} {df : Frame}
    (hnc : ¬ pyEqStr c.action "create" = true)
    (hcp : pyEqStr c.action "copy" = true ∨ c.action = Cell.pynone)
    (hf : findColumnCaseInsensitive df c.source_name = none)
    (lenient : String → Option PyDate) (r : Frame) (s : Stats) :
    processSpec lenient df (r, s) c =
      (setScalar r c.target_name (.str ""), s) := by
  unfold processSpec
  simp [hnc, hcp, hf]

theorem processSpec_copy_falsy {c : ColumnSpec} {df : Frame} {src : Cell}
    (hnc : ¬ pyEqStr c.action "create" = true)
    (hcp : pyEqStr c.action "copy" = true ∨ c.action = Cell.pynone)
    (hf : findColumnCaseInsensitive df c.source_name = some src)
    (ht : truthy src = false)
    (lenient : String → Option PyDate) (r : Frame) (s : Stats) :
    processSpec lenient df (r, s) c =
      (setScalar r c.target_name (.str ""), s) := by
  unfold processSpec
  simp [hnc, hcp, hf, ht]

theorem processSpec_invalid {c : ColumnSpec}
    (hnc : ¬ pyEqStr c.action "create" = true)
    (hncp : ¬ (pyEqStr c.action "copy" = true ∨ c.action = Cell.pynone))
    (lenient : String → Option PyDate) (df : Frame) (r : Frame) (s : Stats) :
    processSpec lenient df (r, s) c = (r, s) := by
  unfold processSpec
  simp [hnc, hncp]

/-- Assigning a Series of exactly the frame's length never adopts a new
index and stores the Series verbatim. -/
theorem setSeries_keep_of_len {r : Frame} {vs : List Cell} (hlen : vs.length = r.nrows)
    (t : Cell) : setSeries r t vs = ⟨r.nrows, upsert r.cols t vs⟩ := by
  have hk : ¬(r.nrows = 0 ∧ vs ≠ []) := by
    rintro ⟨h0, hne⟩
    apply hne
    apply List.eq_nil_of_length_eq_zero
    rw [hlen, h0]
  rw [setSeries_keep hk]
  have : reindexTo vs r.nrows = vs := by
    rw [← hlen, reindexTo_self]
  rw [this]

theorem colValues_setSeries_len {r : Frame} {vs : List Cell}
    (hlen : vs.length = r.nrows) (t T : Cell) :
    colValues (setSeries r t vs) T =
      if cellKeyEq T t = true then some vs else colValues r T := by
  rw [setSeries_keep_of_len hlen]
  exact entryLookup_upsert _ _ _ _

theorem setSeries_nrows_of_len {r : Frame} {vs : List Cell}
    (hlen : vs.length = r.nrows) (t : Cell) : (setSeries r t vs).nrows = r.nrows := by
  rw [setSeries_keep_of_len hlen]

/-- The step characterisation of `processSpec` from a state whose row
index already equals the input's: the target column receives exactly
`expectedContent`, every other column is untouched, the row count and
well-formedness are preserved, and the label list grows by `addName`. -/
theorem processSpec_step_char {lenient : String → Option PyDate} {df : Frame}
    (hdf : df.WF) {c : ColumnSpec} (hv : ValidAction c)
    {r : Frame} (s : Stats) (hwf : r.WF) (hnr : r.nrows = df.nrows) :
    (processSpec lenient df (r, s) c).1.WF ∧
    (processSpec lenient df (r, s) c).1.nrows = df.nrows ∧
    colNames (processSpec lenient df (r, s) c).1 = addName (colNames r) c.target_name ∧
    (∀ T : Cell, colValues (processSpec lenient df (r, s) c).1 T =
      if cellKeyEq c.target_name T = true then some (expectedContent lenient df c)
      else colValues r T) := by
  by_cases h : pyEqStr c.action "create" = true
  · rw [processSpec_create h]
    refine ⟨setScalar_WF hwf _ _, hnr ▸ setScalar_nrows r _ _, colNames_setScalar r _ _, ?_⟩
    intro T
    rw [colValues_setScalar, cellKeyEq_comm]
    unfold expectedContent
    rw [if_pos h, hnr]
  · have hcp : pyEqStr c.action "copy" = true ∨ c.action = Cell.pynone := by
      rcases hv with hv | hv | hv
      · exact absurd hv h
      · exact Or.inl hv
      · exact Or.inr hv
    have hexp_miss : ∀ (hf : findColumnCaseInsensitive df c.source_name = none),
        expectedContent lenient df c = List.replicate df.nrows (.str "") := by
      intro hf
      unfold expectedContent
      rw [if_neg h, hf]
    cases hfind : findColumnCaseInsensitive df c.source_name with
    | none =>
      rw [processSpec_copy_miss h hcp hfind]
      refine ⟨setScalar_WF hwf _ _, hnr ▸ setScalar_nrows r _ _, colNames_setScalar r _ _, ?_⟩
      intro T
      rw [colValues_setScalar, cellKeyEq_comm, hexp_miss hfind, hnr]
    | some src =>
      cases htr : truthy src with
      | false =>
        rw [processSpec_copy_falsy h hcp hfind htr]
        refine ⟨setScalar_WF hwf _ _, hnr ▸ setScalar_nrows r _ _, colNames_setScalar r _ _, ?_⟩
        intro T
        have hexp : expectedContent lenient df c = List.replicate df.nrows (.str "") := by
          unfold expectedContent
          rw [if_neg h, hfind]
          simp [htr]
        rw [colValues_setScalar, cellKeyEq_comm, hexp, hnr]
      | true =>
        obtain ⟨vals, hvals, hlen0⟩ := findCol_colValues hfind
        have hlen : vals.length = df.nrows := hlen0 hdf
        have hgetD : (colValues df src).getD [] = vals := by rw [hvals]; rfl
        have hlenr : vals.length = r.nrows := by rw [hlen, hnr]
        cases hd : c.is_date with
        | false =>
          rw [processSpec_copy_found h hcp hfind htr hd, hgetD]
          have hexp : expectedContent lenient df c = vals := by
            unfold expectedContent
            rw [if_neg h, hfind]
            simp [htr, hd, hgetD]
          refine ⟨setSeries_WF hwf _ _, ?_, colNames_setSeries r _ _, ?_⟩
          · rw [setSeries_nrows_of_len hlenr, hnr]
          · intro T
            rw [colValues_setSeries_len hlenr, cellKeyEq_comm, hexp]
        | true =>
          rw [processSpec_copy_found_date h hcp hfind htr hd, hgetD]
          have hcur : (colValues (setSeries r c.target_name vals) c.target_name).getD []
              = vals := by
            rw [colValues_setSeries_len hlenr, if_pos (cellKeyEq_refl _)]
            rfl
          rw [hcur]
          have hfd : (formatDateColumn lenient c.date_format c.date_locale vals).length
              = (setSeries r c.target_name vals).nrows := by
            rw [setSeries_nrows_of_len hlenr]
            simp [formatDateColumn, hlenr]
          have hexp : expectedContent lenient df c =
              formatDateColumn lenient c.date_format c.date_locale vals := by
            unfold expectedContent
            rw [if_neg h, hfind]
            simp [htr, hd, hgetD]
          refine ⟨setSeries_WF (setSeries_WF hwf _ _) _ _, ?_, ?_, ?_⟩
          · rw [setSeries_nrows_of_len hfd, setSeries_nrows_of_len hlenr, hnr]
          · rw [colNames_setSeries, colNames_setSeries, addName_idem]
          · intro T
            rw [colValues_setSeries_len hfd, colValues_setSeries_len hlenr,
              cellKeyEq_comm, hexp]
            by_cases ht : cellKeyEq T c.target_name = true
            · rw [cellKeyEq_comm] at ht
              rw [if_pos ht, if_pos ht]
            · rw [cellKeyEq_comm] at ht
              rw [if_neg ht, if_neg ht, if_neg ht]

theorem emptyFrame_WF : emptyFrame.WF := by
  intro p hp
  simp [emptyFrame] at hp

theorem addName_nil (t : Cell) : addName [] t = [t] := rfl

/-- The first processed spec of a run, when it is an establishing copy
(a resolving source column): the empty output frame adopts the input's
row count, and the step characterisation holds with an empty prior
state. -/
theorem processSpec_first_char {lenient : String → Option PyDate} {df : Frame}
    (hdf : df.WF) {c : ColumnSpec} (hest : Establishes df c) (s : Stats) :
    (processSpec lenient df (emptyFrame, s) c).1.WF ∧
    (processSpec lenient df (emptyFrame, s) c).1.nrows = df.nrows ∧
    colNames (processSpec lenient df (emptyFrame, s) c).1 = [c.target_name] ∧
    (∀ T : Cell, colValues (processSpec lenient df (emptyFrame, s) c).1 T =
      if cellKeyEq c.target_name T = true then some (expectedContent lenient df c)
      else none) := by
  obtain ⟨hcs, hres⟩ := hest
  have hnc : ¬ pyEqStr c.action "create" = true := by
    rcases hcs with hcp | hcp
    · intro hcr
      cases hact : c.action <;> simp [pyEqStr, hact] at hcp hcr
      rw [hcp] at hcr
      simp at hcr
    · intro hcr
      rw [hcp] at hcr
      simp [pyEqStr] at hcr
  obtain ⟨src, hfind, htr⟩ : ∃ src, findColumnCaseInsensitive df c.source_name = some src
      ∧ truthy src = true := by
    unfold copyResolves at hres
    cases hfind : findColumnCaseInsensitive df c.source_name with
    | none => rw [hfind] at hres; simp at hres
    | some src => rw [hfind] at hres; exact ⟨src, rfl, hres⟩
  by_cases h0 : df.nrows = 0
  · obtain ⟨w1, w2, w3, w4⟩ := processSpec_step_char hdf
      (Or.inr hcs) s emptyFrame_WF (show emptyFrame.nrows = df.nrows by rw [h0]; rfl)
    exact ⟨w1, w2, by rw [w3]; rfl, w4⟩
  · obtain ⟨vals, hvals, hlen0⟩ := findCol_colValues hfind
    have hlen : vals.length = df.nrows := hlen0 hdf
    have hgetD : (colValues df src).getD [] = vals := by rw [hvals]; rfl
    have hne : vals ≠ [] := by
      intro hc
      rw [hc] at hlen
      exact h0 hlen.symm
    have hadopt : setSeries emptyFrame c.target_name vals
        = ⟨vals.length, [(c.target_name, vals)]⟩ := by
      rw [setSeries_adopt rfl hne]
      rfl
    have hr1wf : (Frame.mk vals.length [(c.target_name, vals)]).WF := by
      intro p hp
      simp at hp
      rw [hp]
    have hr1look : ∀ T, colValues ⟨vals.length, [(c.target_name, vals)]⟩ T
        = if cellKeyEq c.target_name T = true then some vals else none := by
      intro T
      unfold colValues entryLookup
      by_cases ht : cellKeyEq c.target_name T = true
      · rw [if_pos ht, if_pos ht]
      · rw [if_neg ht, if_neg ht]
        rfl
    cases hd : c.is_date with
    | false =>
      rw [processSpec_copy_found hnc hcs hfind htr hd, hgetD, hadopt]
      have hexp : expectedContent lenient df c = vals := by
        unfold expectedContent
        rw [if_neg hnc, hfind]
        simp [htr, hd, hgetD]
      refine ⟨hr1wf, hlen, rfl, ?_⟩
      intro T
      rw [hr1look T, hexp]
    | true =>
      rw [processSpec_copy_found_date hnc hcs hfind htr hd, hgetD, hadopt]
      have hcur : (colValues ⟨vals.length, [(c.target_name, vals)]⟩ c.target_name).getD []
          = vals := by
        rw [hr1look, if_pos (cellKeyEq_refl _)]
        rfl
      rw [hcur]
      have hfd : (formatDateColumn lenient c.date_format c.date_locale vals).length
          = (Frame.mk vals.length [(c.target_name, vals)]).nrows := by
        simp [formatDateColumn]
      have hexp : expectedContent lenient df c
          = formatDateColumn lenient c.date_format c.date_locale vals := by
        unfold expectedContent
        rw [if_neg hnc, hfind]
        simp [htr, hd, hgetD]
      refine ⟨setSeries_WF hr1wf _ _, ?_, ?_, ?_⟩
      · rw [setSeries_nrows_of_len hfd]
        exact hlen
      · rw [colNames_setSeries]
        show addName [c.target_name] c.target_name = [c.target_name]
        unfold addName
        rw [if_pos (by simp [cellKeyEq_refl])]
      · intro T
        rw [colValues_setSeries_len hfd, hr1look T, hexp, cellKeyEq_comm]
        by_cases ht : cellKeyEq c.target_name T = true
        · rw [if_pos ht, if_pos ht]
        · rw [if_neg ht, if_neg ht, if_neg ht]

/-- Characterisation of the whole projection fold from an established
state. -/
theorem projectFold_char {lenient : String → Option PyDate} {df : Frame}
    (hdf : df.WF) :
    ∀ (specs : List ColumnSpec), (∀ c ∈ specs, ValidAction c) →
    ∀ (r : Frame) (s : Stats), r.WF → r.nrows = df.nrows →
      (specs.foldl (processSpec lenient df) (r, s)).1.WF ∧
      (specs.foldl (processSpec lenient df) (r, s)).1.nrows = df.nrows ∧
      colNames (specs.foldl (processSpec lenient df) (r, s)).1
        = specs.foldl (fun ns c => addName ns c.target_name) (colNames r) ∧
      (∀ T : Cell, colValues (specs.foldl (processSpec lenient df) (r, s)).1 T =
        match lastSpecFor specs T with
        | some d => some (expectedContent lenient df d)
        | none => colValues r T) := by
  intro specs
  induction specs with
  | nil =>
    intro _ r s hwf hnr
    exact ⟨hwf, hnr, rfl, fun T => by simp [lastSpecFor]⟩
  | cons c cs ih =>
    intro hval r s hwf hnr
    simp only [List.foldl_cons]
    obtain ⟨w1, w2, w3, w4⟩ :=
      processSpec_step_char hdf (hval c (List.mem_cons_self _ _)) s hwf hnr
    rcases hps : processSpec lenient df (r, s) c with ⟨r', s'⟩
    rw [hps] at w1 w2 w3 w4
    obtain ⟨z1, z2, z3, z4⟩ :=
      ih (fun d hd => hval d (List.mem_cons_of_mem _ hd)) r' s' w1 w2
    refine ⟨z1, z2, ?_, ?_⟩
    · rw [z3, w3]
    · intro T
      rw [z4 T]
      cases hls : lastSpecFor cs T with
      | some d => simp [lastSpecFor, hls]
      | none =>
        simp only [lastSpecFor, hls]
        rw [w4 T]
        by_cases ht : cellKeyEq c.target_name T = true
        · rw [if_pos ht, if_pos ht]
        · rw [if_neg ht, if_neg ht]

/-- The full characterisation of the Column Projector: provided the input
is empty or the first spec is an establishing copy, the projected frame
has the input's row count, labels `targetNamesDedup`, and each label
holds the content of the last spec targeting it. -/
theorem projectColumns_char {lenient : String → Option PyDate} {df : Frame}
    (hdf : df.WF) (specs : List ColumnSpec) (hval : ∀ c ∈ specs, ValidAction c)
    (hstart : df.nrows = 0 ∨ ∃ c0 rest, specs = c0 :: rest ∧ Establishes df c0)
    (s : Stats) :
    (projectColumns lenient df s specs).1.WF ∧
    (projectColumns lenient df s specs).1.nrows = df.nrows ∧
    colNames (projectColumns lenient df s specs).1 = targetNamesDedup specs ∧
    (∀ T : Cell, colValues (projectColumns lenient df s specs).1 T =
      (lastSpecFor specs T).map (expectedContent lenient df)) := by
  unfold projectColumns targetNamesDedup
  rcases hstart with h0 | ⟨c0, rest, hspecs, hest⟩
  · obtain ⟨z1, z2, z3, z4⟩ := projectFold_char hdf specs hval emptyFrame s
      emptyFrame_WF (by rw [h0]; rfl)
    refine ⟨z1, z2, z3, ?_⟩
    intro T
    rw [z4 T]
    cases lastSpecFor specs T <;> rfl
  · subst hspecs
    simp only [List.foldl_cons]
    obtain ⟨w1, w2, w3, w4⟩ := processSpec_first_char hdf hest s
    rcases hps : processSpec lenient df (emptyFrame, s) c0 with ⟨r', s'⟩
    rw [hps] at w1 w2 w3 w4
    obtain ⟨z1, z2, z3, z4⟩ :=
      projectFold_char hdf rest (fun d hd => hval d (List.mem_cons_of_mem _ hd)) r' s' w1 w2
    refine ⟨z1, z2, ?_, ?_⟩
    · rw [z3, w3]
      rfl
    · intro T
      rw [z4 T]
      cases hls : lastSpecFor rest T with
      | some d => simp [lastSpecFor, hls]
      | none =>
        simp only [lastSpecFor, hls]
        rw [w4 T]
        by_cases ht : cellKeyEq c0.target_name T = true
        · simp [ht]
        · simp [ht]

/-! ### Lemmas about the statistics fields -/

/-- One step of the projection loop increments `created_columns` for a
create action and `formatted_date_columns` for a date-formatted copy,
leaving the other two fields alone. -/
theorem processSpec_stats (lenient : String → Option PyDate) (df : Frame)
    (c : ColumnSpec) (r : Frame) (s : Stats) :
    (processSpec lenient df (r, s) c).2 =
      { s with
        created_columns :=
          s.created_columns + (if pyEqStr c.action "create" = true then 1 else 0),
        formatted_date_columns :=
          s.formatted_date_columns + (if specFormatsDate df c = true then 1 else 0) } := by
  by_cases h : pyEqStr c.action "create" = true
  · rw [processSpec_create h]
    have hsf : specFormatsDate df c = false := by simp [specFormatsDate, h]
    simp [h, hsf]
  · by_cases hcp : pyEqStr c.action "copy" = true ∨ c.action = Cell.pynone
    · have h1 : (pyEqStr c.action "copy" || c.action == Cell.pynone) = true := by
        rcases hcp with hcp | hcp
        · simp [hcp]
        · simp [hcp]
      cases hfind : findColumnCaseInsensitive df c.source_name with
      | none =>
        rw [processSpec_copy_miss h hcp hfind]
        have hsf : specFormatsDate df c = false := by
          simp [specFormatsDate, copyResolves, hfind]
        simp [h, hsf]
      | some src =>
        cases htr : truthy src with
        | false =>
          rw [processSpec_copy_falsy h hcp hfind htr]
          have hsf : specFormatsDate df c = false := by
            simp [specFormatsDate, copyResolves, hfind, htr]
          simp [h, hsf]
        | true =>
          cases hd : c.is_date with
          | false =>
            rw [processSpec_copy_found h hcp hfind htr hd]
            have hsf : specFormatsDate df c = false := by
              simp [specFormatsDate, copyResolves, hfind, htr, hd]
            simp [h, hsf]
          | true =>
            rw [processSpec_copy_found_date h hcp hfind htr hd]
            have h2 : copyResolves df c = true := by simp [copyResolves, hfind, htr]
            have hsf : specFormatsDate df c = true := by
              simp [specFormatsDate, boolFalse h, h1, h2, hd]
            simp [h, hsf]
    · rw [processSpec_invalid h hcp lenient df r s]
      push_neg at hcp
      have hsf : specFormatsDate df c = false := by
        simp [specFormatsDate, hcp.1, hcp.2]
      simp [h, hsf]

theorem countCreates_cons (c : ColumnSpec) (cs : List ColumnSpec) :
    countCreates (c :: cs) =
      (if pyEqStr c.action "create" = true then 1 else 0) + countCreates cs := by
  by_cases h : pyEqStr c.action "create" = true <;>
    simp [countCreates, List.filter_cons, h, Nat.add_comm]

theorem countDates_cons (df : Frame) (c : ColumnSpec) (cs : List ColumnSpec) :
    countDates df (c :: cs) =
      (if specFormatsDate df c = true then 1 else 0) + countDates df cs := by
  by_cases h : specFormatsDate df c = true <;>
    simp [countDates, List.filter_cons, h, Nat.add_comm]

/-- The projection fold's effect on the statistics: `created_columns`
and `formatted_date_columns` are incremented (not reset), the other two
fields are untouched. -/
theorem projectFold_stats (lenient : String → Option PyDate) (df : Frame) :
    ∀ (specs : List ColumnSpec) (r : Frame) (s : Stats),
      (specs.foldl (processSpec lenient df) (r, s)).2 =
        { s with
          created_columns := s.created_columns + countCreates specs,
          formatted_date_columns :=
            s.formatted_date_columns + countDates df specs } := by
  intro specs
  induction specs with
  | nil =>
    intro r s
    simp [countCreates, countDates]
  | cons c cs ih =>
    intro r s
    simp only [List.foldl_cons]
    rcases hps : processSpec lenient df (r, s) c with ⟨r', s'⟩
    have hstep := processSpec_stats lenient df c r s
    rw [hps] at hstep
    have hstep2 : s' = _ := hstep
    rw [ih r' s', hstep2, countCreates_cons, countDates_cons]
    simp only
    congr 1 <;> omega

/-! ### Lemmas about `_apply_replace_rules` -/

theorem applyRule_unresolved {df : Frame} {rule : ReplaceRule}
    (h : findColumnCaseInsensitive df rule.column = none) (k : Nat) :
    applyRule (df, k) rule = (df, k) := by
  simp [applyRule, h]

theorem applyRule_falsy {df : Frame} {rule : ReplaceRule} {tc : Cell}
    (h : findColumnCaseInsensitive df rule.column = some tc)
    (ht : truthy tc = false) (k : Nat) :
    applyRule (df, k) rule = (df, k) := by
  simp [applyRule, h, ht]

/-- The counter increment of a rule is `1` exactly when the rule matched,
and the resulting frame does not depend on the incoming counter. -/
theorem applyRule_split (df : Frame) (k : Nat) (rule : ReplaceRule) :
    applyRule (df, k) rule =
      ((applyRule (df, 0) rule).1,
       k + (if ruleMatched df rule = true then 1 else 0)) := by
  cases hfind : findColumnCaseInsensitive df rule.column with
  | none => simp [applyRule, ruleMatched, hfind]
  | some tc =>
    cases htr : truthy tc with
    | false => simp [applyRule, ruleMatched, hfind, htr]
    | true =>
      by_cases haff :
          (ruleMask ((colValues df tc).getD []) rule.find_value).count true > 0
      · simp [applyRule, ruleMatched, hfind, htr, haff]
      · simp [applyRule, ruleMatched, hfind, htr, haff]

theorem applyFold_shift :
    ∀ (rules : List ReplaceRule) (d : Frame) (k : Nat),
      (rules.foldl applyRule (d, k)).2 = k + (rules.foldl applyRule (d, 0)).2 ∧
      (rules.foldl applyRule (d, k)).1 = (rules.foldl applyRule (d, 0)).1 := by
  intro rules
  induction rules with
  | nil => intro d k; simp
  | cons r rs ih =>
    intro d k
    simp only [List.foldl_cons]
    rw [applyRule_split d k r, applyRule_split d 0 r]
    obtain ⟨ia, ib⟩ := ih (applyRule (d, 0) r).1 (k + if ruleMatched d r = true then 1 else 0)
    obtain ⟨ja, jb⟩ := ih (applyRule (d, 0) r).1 (0 + if ruleMatched d r = true then 1 else 0)
    refine ⟨?_, ?_⟩
    · rw [ia, ja]
      omega
    · rw [ib, jb]

/-- `rules_applied` equals the number of rules that matched at least one
row, over the sequential application. -/
theorem applyReplaceRules_count (df : Frame) (rules : List ReplaceRule) :
    (applyReplaceRules df rules).2 = specAppliedCount df rules := by
  unfold applyReplaceRules
  induction rules generalizing df with
  | nil => rfl
  | cons r rs ih =>
    simp only [List.foldl_cons]
    rw [applyRule_split df 0 r]
    obtain ⟨sa, sb⟩ :=
      applyFold_shift rs (applyRule (df, 0) r).1 (0 + if ruleMatched df r = true then 1 else 0)
    rw [sa, ih (applyRule (df, 0) r).1]
    have heq : specAppliedCount df (r :: rs) =
        (if ruleMatched df r = true then 1 else 0)
          + specAppliedCount (applyRule (df, 0) r).1 rs := rfl
    rw [heq]
    omega

theorem applyRule_frame_inv (d : Frame) (k : Nat) (rule : ReplaceRule) :
    colNames (applyRule (d, k) rule).1 = colNames d ∧
    (applyRule (d, k) rule).1.nrows = d.nrows := by
  cases hfind : findColumnCaseInsensitive d rule.column with
  | none => simp [applyRule, hfind]
  | some tc =>
    cases htr : truthy tc with
    | false => simp [applyRule, hfind, htr]
    | true =>
      by_cases haff :
          (ruleMask ((colValues d tc).getD []) rule.find_value).count true > 0
      · simp only [applyRule, hfind, htr, haff]
        constructor
        · simp [apply_ite colNames, colNames_setMasked]
        · simp [apply_ite Frame.nrows, setMasked_nrows]
      · simp [applyRule, hfind, htr, haff]

theorem applyFold_frame_inv :
    ∀ (rules : List ReplaceRule) (d : Frame) (k : Nat),
      colNames (rules.foldl applyRule (d, k)).1 = colNames d ∧
      (rules.foldl applyRule (d, k)).1.nrows = d.nrows := by
  intro rules
  induction rules with
  | nil => intro d k; exact ⟨rfl, rfl⟩
  | cons r rs ih =>
    intro d k
    simp only [List.foldl_cons]
    rcases hps : applyRule (d, k) r with ⟨d', k'⟩
    obtain ⟨ha, hb⟩ := applyRule_frame_inv d k r
    rw [hps] at ha hb
    obtain ⟨za, zb⟩ := ih d' k'
    exact ⟨za.trans ha, zb.trans hb⟩

/-! ### Row-count tracking through the projection (for claim C1) -/

theorem processSpec_nrows_keep {lenient : String → Option PyDate} {df : Frame}
    (hdf : df.WF) (c : ColumnSpec) {r : Frame} (s : Stats)
    (hnr : r.nrows = df.nrows) :
    (processSpec lenient df (r, s) c).1.nrows = df.nrows := by
  by_cases h : pyEqStr c.action "create" = true
  · rw [processSpec_create h]
    rw [setScalar_nrows, hnr]
  · by_cases hcp : pyEqStr c.action "copy" = true ∨ c.action = Cell.pynone
    · cases hfind : findColumnCaseInsensitive df c.source_name with
      | none =>
        rw [processSpec_copy_miss h hcp hfind, setScalar_nrows, hnr]
      | some src =>
        cases htr : truthy src with
        | false => rw [processSpec_copy_falsy h hcp hfind htr, setScalar_nrows, hnr]
        | true =>
          obtain ⟨vals, hvals, hlen0⟩ := findCol_colValues hfind
          have hlen : vals.length = df.nrows := hlen0 hdf
          have hgetD : (colValues df src).getD [] = vals := by rw [hvals]; rfl
          have hlenr : vals.length = r.nrows := by rw [hlen, hnr]
          cases hd : c.is_date with
          | false =>
            rw [processSpec_copy_found h hcp hfind htr hd, hgetD,
              setSeries_nrows_of_len hlenr, hnr]
          | true =>
            rw [processSpec_copy_found_date h hcp hfind htr hd, hgetD]
            have hcur : (colValues (setSeries r c.target_name vals) c.target_name).getD []
                = vals := by
              rw [colValues_setSeries_len hlenr, if_pos (cellKeyEq_refl _)]
              rfl
            rw [hcur]
            have hfd : (formatDateColumn lenient c.date_format c.date_locale vals).length
                = (setSeries r c.target_name vals).nrows := by
              rw [setSeries_nrows_of_len hlenr]
              simp [formatDateColumn, hlenr]
            rw [setSeries_nrows_of_len hfd, setSeries_nrows_of_len hlenr, hnr]
    · rw [processSpec_invalid h hcp lenient df r s]
      exact hnr

theorem processSpec_nrows_zero {lenient : String → Option PyDate} {df : Frame}
    (hdf : df.WF) (c : ColumnSpec) {r : Frame} (s : Stats) (h0 : r.nrows = 0) :
    (processSpec lenient df (r, s) c).1.nrows = 0 ∨
    (processSpec lenient df (r, s) c).1.nrows = df.nrows := by
  by_cases h : pyEqStr c.action "create" = true
  · rw [processSpec_create h, setScalar_nrows]
    exact Or.inl h0
  · by_cases hcp : pyEqStr c.action "copy" = true ∨ c.action = Cell.pynone
    · cases hfind : findColumnCaseInsensitive df c.source_name with
      | none => rw [processSpec_copy_miss h hcp hfind, setScalar_nrows]; exact Or.inl h0
      | some src =>
        cases htr : truthy src with
        | false =>
          rw [processSpec_copy_falsy h hcp hfind htr, setScalar_nrows]
          exact Or.inl h0
        | true =>
          obtain ⟨vals, hvals, hlen0⟩ := findCol_colValues hfind
          have hlen : vals.length = df.nrows := hlen0 hdf
          have hgetD : (colValues df src).getD [] = vals := by rw [hvals]; rfl
          by_cases hnil : vals = []
          · have hlenr : vals.length = r.nrows := by rw [hnil, h0]; rfl
            cases hd : c.is_date with
            | false =>
              rw [processSpec_copy_found h hcp hfind htr hd, hgetD,
                setSeries_nrows_of_len hlenr]
              exact Or.inl h0
            | true =>
              rw [processSpec_copy_found_date h hcp hfind htr hd, hgetD]
              have hcur : (colValues (setSeries r c.target_name vals) c.target_name).getD []
                  = vals := by
                rw [colValues_setSeries_len hlenr, if_pos (cellKeyEq_refl _)]
                rfl
              rw [hcur]
              have hfd : (formatDateColumn lenient c.date_format c.date_locale vals).length
                  = (setSeries r c.target_name vals).nrows := by
                rw [setSeries_nrows_of_len hlenr]
                simp [formatDateColumn, hlenr]
              rw [setSeries_nrows_of_len hfd, setSeries_nrows_of_len hlenr]
              exact Or.inl h0
          · have hadopt : setSeries r c.target_name vals
                = ⟨vals.length, upsert
                    (r.cols.map (fun p => (p.1, List.replicate vals.length Cell.nan)))
                    c.target_name vals⟩ :=
              setSeries_adopt h0 hnil c.target_name
            cases hd : c.is_date with
            | false =>
              rw [processSpec_copy_found h hcp hfind htr hd, hgetD, hadopt]
              exact Or.inr hlen
            | true =>
              rw [processSpec_copy_found_date h hcp hfind htr hd, hgetD, hadopt]
              have hr1 : (Frame.mk vals.length
                  (upsert (r.cols.map (fun p => (p.1, List.replicate vals.length Cell.nan)))
                    c.target_name vals)).nrows = vals.length := rfl
              have hfd : (formatDateColumn lenient c.date_format c.date_locale
                  ((colValues ⟨vals.length,
                      upsert (r.cols.map (fun p => (p.1, List.replicate vals.length Cell.nan)))
                        c.target_name vals⟩ c.target_name).getD [])).length
                  = (Frame.mk vals.length
                      (upsert (r.cols.map (fun p => (p.1, List.replicate vals.length Cell.nan)))
                        c.target_name vals)).nrows := by
                show _ = vals.length
                have hlook : colValues ⟨vals.length,
                    upsert (r.cols.map (fun p => (p.1, List.replicate vals.length Cell.nan)))
                      c.target_name vals⟩ c.target_name = some vals := by
                  unfold colValues
                  rw [entryLookup_upsert, if_pos (cellKeyEq_refl _)]
                rw [hlook]
                simp [formatDateColumn]
              rw [setSeries_nrows_of_len hfd]
              exact Or.inr hlen
    · rw [processSpec_invalid h hcp lenient df r s]
      exact Or.inl h0

theorem processSpec_nrows_establish {lenient : String → Option PyDate} {df : Frame}
    (hdf : df.WF) {c : ColumnSpec} (hest : Establishes df c) {r : Frame} (s : Stats)
    (h0 : r.nrows = 0) :
    (processSpec lenient df (r, s) c).1.nrows = df.nrows := by
  obtain ⟨hcs, hres⟩ := hest
  have hnc : ¬ pyEqStr c.action "create" = true := by
    rcases hcs with hcp | hcp
    · intro hcr
      cases hact : c.action <;> simp [pyEqStr, hact] at hcp hcr
      rw [hcp] at hcr
      simp at hcr
    · intro hcr
      rw [hcp] at hcr
      simp [pyEqStr] at hcr
  obtain ⟨src, hfind, htr⟩ : ∃ src, findColumnCaseInsensitive df c.source_name = some src
      ∧ truthy src = true := by
    unfold copyResolves at hres
    cases hfind : findColumnCaseInsensitive df c.source_name with
    | none => rw [hfind] at hres; simp at hres
    | some src => rw [hfind] at hres; exact ⟨src, rfl, hres⟩
  obtain ⟨vals, hvals, hlen0⟩ := findCol_colValues hfind
  have hlen : vals.length = df.nrows := hlen0 hdf
  rcases @processSpec_nrows_zero lenient df hdf c r s h0 with hz | hz
  · by_cases hnil : vals = []
    · rw [hz]
      rw [hnil] at hlen
      exact hlen
    · -- a non-empty resolving copy adopts the index: the zero case is impossible
      -- unless the input itself is empty
      have hgetD : (colValues df src).getD [] = vals := by rw [hvals]; rfl
      have hadopt : setSeries r c.target_name vals
          = ⟨vals.length, upsert
              (r.cols.map (fun p => (p.1, List.replicate vals.length Cell.nan)))
              c.target_name vals⟩ :=
        setSeries_adopt h0 hnil c.target_name
      cases hd : c.is_date with
      | false =>
        rw [processSpec_copy_found hnc hcs hfind htr hd, hgetD, hadopt] at hz ⊢
        exact hlen
      | true =>
        rw [processSpec_copy_found_date hnc hcs hfind htr hd, hgetD, hadopt] at hz ⊢
        have hlook : colValues ⟨vals.length,
            upsert (r.cols.map (fun p => (p.1, List.replicate vals.length Cell.nan)))
              c.target_name vals⟩ c.target_name = some vals := by
          unfold colValues
          rw [entryLookup_upsert, if_pos (cellKeyEq_refl _)]
        rw [hlook] at hz ⊢
        have hfd : (formatDateColumn lenient c.date_format c.date_locale
            ((some vals).getD [])).length
            = (Frame.mk vals.length
                (upsert (r.cols.map (fun p => (p.1, List.replicate vals.length Cell.nan)))
                  c.target_name vals)).nrows := by
          simp [formatDateColumn]
        rw [setSeries_nrows_of_len hfd] at hz ⊢
        exact hlen
  · exact hz

theorem projectFold_nrows {lenient : String → Option PyDate} {df : Frame}
    (hdf : df.WF) :
    ∀ (specs : List ColumnSpec) (r : Frame) (s : Stats),
      (r.nrows = df.nrows ∨ r.nrows = 0) →
      (r.nrows = df.nrows ∨ ∃ c ∈ specs, Establishes df c) →
      (specs.foldl (processSpec lenient df) (r, s)).1.nrows = df.nrows := by
  intro specs
  induction specs with
  | nil =>
    intro r s _ h2
    rcases h2 with h2 | ⟨c, hc, _⟩
    · exact h2
    · simp at hc
  | cons c cs ih =>
    intro r s h1 h2
    simp only [List.foldl_cons]
    rcases hps : processSpec lenient df (r, s) c with ⟨r', s'⟩
    rcases h1 with h1 | h1
    · have hk := @processSpec_nrows_keep lenient df hdf c r s h1
      rw [hps] at hk
      exact ih r' s' (Or.inl hk) (Or.inl hk)
    · rcases h2 with h2 | ⟨c', hc', hestc⟩
      · have hk := @processSpec_nrows_keep lenient df hdf c r s h2
        rw [hps] at hk
        exact ih r' s' (Or.inl hk) (Or.inl hk)
      · rcases List.mem_cons.mp hc' with hh | hh
        · subst hh
          have hk := @processSpec_nrows_establish lenient df hdf c' hestc r s h1
          rw [hps] at hk
          exact ih r' s' (Or.inl hk) (Or.inl hk)
        · have hz := @processSpec_nrows_zero lenient df hdf c r s h1
          rw [hps] at hz
          rcases hz with hz | hz
          · exact ih r' s' (Or.inr hz) (Or.inr ⟨c', hh, hestc⟩)
          · exact ih r' s' (Or.inl hz) (Or.inl hz)

theorem dedup_of_distinct :
    ∀ (specs : List ColumnSpec) (ns : List Cell),
      (∀ c ∈ specs, ∀ n ∈ ns, cellKeyEq n c.target_name = false) →
      List.Pairwise (fun a b => cellKeyEq a.target_name b.target_name = false) specs →
      specs.foldl (fun ns c => addName ns c.target_name) ns
        = ns ++ specs.map (fun c => c.target_name) := by
  intro specs
  induction specs with
  | nil => intro ns _ _; simp
  | cons c cs ih =>
    intro ns hns hpw
    simp only [List.foldl_cons]
    have hadd : addName ns c.target_name = ns ++ [c.target_name] := by
      unfold addName
      rw [if_neg]
      intro hany
      rw [List.any_eq_true] at hany
      obtain ⟨n, hn, hp⟩ := hany
      rw [hns c (List.mem_cons_self _ _) n hn] at hp
      exact absurd hp (by simp)
    rw [hadd]
    rw [ih (ns ++ [c.target_name]) ?_ (List.Pairwise.of_cons hpw)]
    · simp
    · intro d hd n hn
      rcases List.mem_append.mp hn with hn | hn
      · exact hns d (List.mem_cons_of_mem _ hd) n hn
      · simp at hn
        subst hn
        exact (List.pairwise_cons.mp hpw).1 d hd

/-! ## Claim theorems -/

/-- C1 (counterexample): an instruction set whose only ColumnSpec is a
create action, run on a one-row input table, produces an output table
with zero rows — pandas broadcasts the scalar over the still-empty index
— and `processedRows` records 0, not 1.  The claim "the output table has
exactly as many rows as the input table" is therefore false as stated. -/
theorem c1_counterexample :
    (processFile noLenient initStats
        ⟨[⟨.str "x", .str "x", .str "create", .pynone, false, .str "DD.MM.YYYY", .str "ru"⟩],
         [], [], [], []⟩
        ⟨1, [(.str "A", [.str "v"])]⟩).1.nrows = 0 ∧
    (processFile noLenient initStats
        ⟨[⟨.str "x", .str "x", .str "create", .pynone, false, .str "DD.MM.YYYY", .str "ru"⟩],
         [], [], [], []⟩
        ⟨1, [(.str "A", [.str "v"])]⟩).2.processed_rows = 0 ∧
    (Frame.mk 1 [(.str "A", [.str "v"])]).nrows = 1 := by
  refine ⟨rfl, rfl, rfl⟩

/-- C1 (amended): when the input table is empty, or at least one
ColumnSpec is a copy action whose source column resolves in the input,
the output table produced by `process_file` has exactly as many rows as
the input table, and this row count is recorded as the `processedRows`
statistic. -/
theorem c1_rows {lenient : String → Option PyDate} {df : Frame} (hdf : df.WF)
    (inst : Instructions) (stats : Stats)
    (hest : df.nrows = 0 ∨ ∃ c ∈ inst.columns, Establishes df c) :
    (processFile lenient stats inst df).1.nrows = df.nrows ∧
    (processFile lenient stats inst df).2.processed_rows = df.nrows := by
  have hproj : (projectColumns lenient df stats inst.columns).1.nrows = df.nrows := by
    apply projectFold_nrows hdf inst.columns emptyFrame stats
    · exact Or.inr rfl
    · rcases hest with h | h
      · exact Or.inl (by rw [h]; rfl)
      · exact Or.inr h
  have hrep := (applyFold_frame_inv inst.replace_rules
    (projectColumns lenient df stats inst.columns).1 0).2
  constructor
  · exact hrep.trans hproj
  · exact hrep.trans hproj

theorem c1_rows_witness :
    (processFile noLenient initStats
        ⟨[⟨.str "a", .str "B", .str "copy", .pynone, false, .str "DD.MM.YYYY", .str "ru"⟩],
         [], [], [], []⟩
        ⟨2, [(.str "A", [.str "x", .str "y"])]⟩).2.processed_rows = 2 :=
  (c1_rows (by intro p hp; simp at hp; simp [hp])
      ⟨[⟨.str "a", .str "B", .str "copy", .pynone, false, .str "DD.MM.YYYY", .str "ru"⟩],
       [], [], [], []⟩ initStats
      (Or.inr ⟨_, List.mem_cons_self _ _, Or.inl (by decide), by decide⟩)).2

/-- C7 (code bug): the statistics dict lives on the `ExcelProcessor`
object, and `created_columns` (like `formatted_date_columns`) is only
ever incremented, never reset, while `main.py` reuses one processor
object for every attachment and mails per-file statistics after each.
Processing the same one-create-column instruction twice leaves
`created_columns = 2` after the second file, although that file created
one column — the statistics after a file do not reflect only that file. -/
theorem c7_stats_accumulate :
    (processFile noLenient initStats
        ⟨[⟨.str "x", .str "x", .str "create", .pynone, false, .str "DD.MM.YYYY", .str "ru"⟩],
         [], [], [], []⟩
        ⟨0, [(.str "A", [])]⟩).2.created_columns = 1 ∧
    (processFile noLenient
        (processFile noLenient initStats
          ⟨[⟨.str "x", .str "x", .str "create", .pynone, false, .str "DD.MM.YYYY", .str "ru"⟩],
           [], [], [], []⟩
          ⟨0, [(.str "A", [])]⟩).2
        ⟨[⟨.str "x", .str "x", .str "create", .pynone, false, .str "DD.MM.YYYY", .str "ru"⟩],
         [], [], [], []⟩
        ⟨0, [(.str "A", [])]⟩).2.created_columns = 2 := by
  refine ⟨rfl, rfl⟩

/-- C9: a replace rule whose column does not resolve case-insensitively
is skipped — frame and counter unchanged, no abort — and the
`appliedRules` statistic returned by `_apply_replace_rules` equals the
number of rules that matched at least one row under the sequential
application. -/
theorem c9_unresolved_and_count :
    (∀ (df : Frame) (rule : ReplaceRule) (k : Nat),
      findColumnCaseInsensitive df rule.column = none →
      applyRule (df, k) rule = (df, k)) ∧
    (∀ (df : Frame) (rules : List ReplaceRule),
      (applyReplaceRules df rules).2 = specAppliedCount df rules) :=
  ⟨fun _ _ k h => applyRule_unresolved h k,
   fun df rules => applyReplaceRules_count df rules⟩

theorem c9_witness :
    applyRule (⟨1, [(.str "Статус", [.str "OK"])]⟩, 0)
        ⟨.str "Отсутствует", .str "x", .str "y", .pynone, .pynone⟩
      = (⟨1, [(.str "Статус", [.str "OK"])]⟩, 0) ∧
    (applyReplaceRules ⟨1, [(.str "Статус", [.str "OK"])]⟩
        [⟨.str "статус ", .str "OK", .str "Готово", .pynone, .pynone⟩,
         ⟨.str "Статус", .str "OK", .str "Нет", .pynone, .pynone⟩]).2 = 1 := by
  constructor
  · exact c9_unresolved_and_count.1 _ _ 0 (by decide)
  · rw [c9_unresolved_and_count.2]
    decide

/-- C10: a data row of the `replace` sheet (with at least its first
three cells materialised, as `openpyxl` pads rows to the sheet width)
yields a ReplaceRule exactly when its first three cells are truthy —
rows with a falsy `findValue`/`replaceValue` (numeric 0, `False`, empty
string) are dropped silently — and `projectValue`/`projectValue2` are
set only when the fourth/fifth cell is present and truthy. -/
theorem c10_replace_rows (header : List Cell) (rows : List (List Cell))
    (hw : ∀ row ∈ rows, 3 ≤ row.length) :
    parseReplaceSheet (header :: rows) = some (rows.filterMap specReplaceRow) := by
  show (rows.foldlM parseReplaceStep []) = _
  suffices h : ∀ (acc : List ReplaceRule),
      (∀ row ∈ rows, 3 ≤ row.length) →
      rows.foldlM parseReplaceStep acc = some (acc ++ rows.filterMap specReplaceRow) by
    rw [h [] hw]
    simp
  clear hw
  induction rows with
  | nil => intro acc _; simp
  | cons row rest ih =>
    intro acc hw
    have h3 := hw row (List.mem_cons_self _ _)
    have hrow : parseReplaceRow row = some (specReplaceRow row) := by
      rcases row with _ | ⟨a, _ | ⟨b, _ | ⟨c, tail⟩⟩⟩
      · simp at h3
      · simp at h3
      · simp at h3
      · by_cases t0 : truthy a = true <;> by_cases t1 : truthy b = true <;>
          by_cases t2 : truthy c = true <;>
          simp [parseReplaceRow, specReplaceRow, t0, t1, t2]
    cases hs : specReplaceRow row with
    | some r =>
      have hstep : parseReplaceStep acc row = some (acc ++ [r]) := by
        simp [parseReplaceStep, hrow, hs]
      simp only [List.foldlM_cons, hstep, Option.bind_eq_bind, Option.some_bind]
      rw [ih (acc ++ [r]) (fun q hq => hw q (List.mem_cons_of_mem _ hq))]
      simp [List.filterMap_cons, hs]
    | none =>
      have hstep : parseReplaceStep acc row = some acc := by
        simp [parseReplaceStep, hrow, hs]
      simp only [List.foldlM_cons, hstep, Option.bind_eq_bind, Option.some_bind]
      rw [ih acc (fun q hq => hw q (List.mem_cons_of_mem _ hq))]
      simp [List.filterMap_cons, hs]

theorem c10_witness :
    parseReplaceSheet
        [[.str "column", .str "find", .str "replace"],
         [.str "Статус", .int 0, .str "r"],
         [.str "Статус", .bool false, .str "r"],
         [.str "Статус", .str "FAIL", .str ""],
         [.str "Статус", .str "FAIL", .str "Ошибка", .str "P1"]]
      = some [⟨.str "Статус", .str "FAIL", .str "Ошибка", .str "P1", .pynone⟩] := by
  rw [c10_replace_rows _ _ (by decide)]
  decide

/-- C4 (counterexample): a perfectly readable instruction workbook whose
`replace` sheet is only two columns wide makes `row[2]` raise an
`IndexError`, which `_parse_instruction_file_v8_1` catches and turns
into `None` — a hard failure with no InstructionSet although the
document was not "totally unreadable". -/
theorem c4_counterexample :
    parseInstructionFile
        [("replace", [[.str "column", .str "find"], [.str "c", .str "f"]])]
      = none := by
  decide

/-- C4 (amended): the parser never raises to its caller — a hard failure
is signalled by producing no InstructionSet (`None`).  That happens when
the document cannot be opened at all, and also for certain readable
documents whose sheet content raises while being parsed (for example a
`replace` sheet whose rows are narrower than three cells); the mere
absence of recognised sheets is not a failure and yields the empty /
default sections. -/
theorem c4_parse_failure :
    getProcessingInstructions none = none ∧
    (∀ wb : List (String × List (List Cell)),
      hasSheet wb "columns" = false → hasSheet wb "replace" = false →
      hasSheet wb "email" = false → hasSheet wb "formatting" = false →
      parseInstructionFile wb = some ⟨[], [], [], defaultFormatting, []⟩) := by
  refine ⟨rfl, ?_⟩
  intro wb h1 h2 h3 h4
  simp [parseInstructionFile, h1, h2, h3, h4, validateInstructions, dictLookup,
    entryLookup]

theorem c4_witness :
    parseInstructionFile [("инструкция", [[.str "x"]])]
      = some ⟨[], [], [], defaultFormatting, []⟩ :=
  c4_parse_failure.2 _ (by decide) (by decide) (by decide) (by decide)

/-! Helper lemmas for claim C8 (color validation). -/

theorem hex_not_ws {c : Char} (h : isHexDigitCh c = true) : isPyWs c = false := by
  unfold isHexDigitCh at h
  unfold isPyWs
  simp only [Bool.or_eq_true, decide_eq_true_eq, Bool.and_eq_true] at h
  simp only [Bool.or_eq_false_iff, decide_eq_false_iff_not]
  omega

theorem hex_not_underscore {c : Char} (h : isHexDigitCh c = true) : ¬ c = '_' := by
  intro hc
  rw [hc] at h
  exact absurd h (by decide)

theorem hexTail_of_all : ∀ cs : List Char, cs.all isHexDigitCh = true →
    hexTail cs = true := by
  intro cs
  induction cs with
  | nil => intro _; rfl
  | cons c rest ih =>
    intro h
    simp only [List.all_cons, Bool.and_eq_true] at h
    unfold hexTail
    rw [if_neg (hex_not_underscore h.1), h.1, Bool.true_and]
    exact ih h.2

theorem afterSign16_of_digits (cs : List Char) (hne : cs ≠ [])
    (h : cs.all isHexDigitCh = true) : afterSign16 cs = true := by
  cases cs with
  | nil => exact absurd rfl hne
  | cons c rest =>
    simp only [List.all_cons, Bool.and_eq_true] at h
    have hpm : ¬(c = '+' ∨ c = '-') := by
      rintro (hc | hc) <;> (rw [hc] at h; exact absurd h.1 (by decide))
    have hbody : hexBody (c :: rest) = true := by
      simp [hexBody, h.1, hexTail_of_all rest h.2]
    simp only [afterSign16, hpm, if_false, ite_false]
    cases rest with
    | nil => simpa [afterPrefix16] using hbody
    | cons c1 rest2 =>
      simp only [List.all_cons, Bool.and_eq_true] at h
      have hx : ¬(c = '0' ∧ (c1 = 'x' ∨ c1 = 'X')) := by
        rintro ⟨_, hc1 | hc1⟩ <;> (rw [hc1] at h; exact absurd h.2.1 (by decide))
      simpa [afterPrefix16, hx] using hbody

theorem dropWhile_ws_of_hex (cs : List Char) (h : cs.all isHexDigitCh = true) :
    cs.dropWhile isPyWs = cs := by
  cases cs with
  | nil => rfl
  | cons c rest =>
    simp only [List.all_cons, Bool.and_eq_true] at h
    simp [List.dropWhile_cons, hex_not_ws h.1]

theorem pyIntParsable16_of_sixHex {s : String} (h : isSixHexDigits s = true) :
    pyIntParsable16 s = true := by
  unfold isSixHexDigits at h
  simp only [Bool.and_eq_true, decide_eq_true_eq] at h
  obtain ⟨hlen, hall⟩ := h
  unfold pyIntParsable16
  rw [dropWhile_ws_of_hex _ hall, dropWhile_ws_of_hex _ (by simpa using hall),
    List.reverse_reverse]
  apply afterSign16_of_digits _ _ hall
  intro hc
  have h0 : s.toList.length = 0 := by rw [hc]; rfl
  have h6 : s.toList.length = 6 := hlen
  omega

/-- C8 (amended): a color-named formatting parameter's value is
normalised by removing every `#` character (not only a leading one) and
uppercasing; it is kept exactly when the result is 6 characters long and
Python's base-16 integer parser accepts it — which admits every string
of 6 hex digits but also forms such as `0XABCD` that are not hex digits
— and is otherwise dropped by storing Python `None` under the parameter
name with a recorded warning.  Because the key then exists with value
`None`, the consumer's `formatting.get(name, default)` yields `None`,
not its built-in default. -/
theorem c8_color_validation :
    (∀ c : Cell, truthy c = true →
      validateColorValue c = .pynone ∨
      (validateColorValue c = .str (pyUpper (removeHashes (pyStr c))) ∧
        (pyUpper (removeHashes (pyStr c))).length = 6)) ∧
    (∀ s : String, s ≠ "" → isSixHexDigits (pyUpper (removeHashes s)) = true →
      validateColorValue (.str s) = .str (pyUpper (removeHashes s))) ∧
    (∀ c : Cell, truthy c = true → (pyUpper (removeHashes (pyStr c))).length ≠ 6 →
      validateColorValue c = .pynone) ∧
    (∀ c : Cell, truthy c = true →
      pyIntParsable16 (pyUpper (removeHashes (pyStr c))) = false →
      validateColorValue c = .pynone) ∧
    (∀ (header : List Cell) (ns : String) (v : Cell),
      truthy (.str ns) = true → truthy v = true →
      strHasSub "color" (pyLower ns) = true →
      parseFormattingSheet [header, [.str ns, v]]
        = some [(.str ns, validateColorValue v)]) ∧
    (∀ (d : List (Cell × Cell)) (k dflt : Cell),
      dictLookup d k = some Cell.pynone → pyDictGet d k dflt = Cell.pynone) := by
  refine ⟨?_, ?_, ?_, ?_, ?_, ?_⟩
  · intro c hc
    unfold validateColorValue
    rw [if_neg (by simp [hc])]
    by_cases hlen : (pyUpper (removeHashes (pyStr c))).length = 6
    · rw [if_pos hlen]
      by_cases hp : pyIntParsable16 (pyUpper (removeHashes (pyStr c))) = true
      · rw [if_pos hp]
        exact Or.inr ⟨rfl, hlen⟩
      · rw [if_neg hp]
        exact Or.inl rfl
    · rw [if_neg hlen]
      exact Or.inl rfl
  · intro s hs hsix
    unfold validateColorValue
    simp only [pyStr]
    rw [if_neg (by simp [truthy, hs])]
    have hlen : (pyUpper (removeHashes s)).length = 6 := by
      unfold isSixHexDigits at hsix
      simp only [Bool.and_eq_true, decide_eq_true_eq] at hsix
      exact hsix.1
    rw [if_pos hlen, if_pos (pyIntParsable16_of_sixHex hsix)]
  · intro c hc hlen
    unfold validateColorValue
    rw [if_neg (by simp [hc]), if_neg hlen]
  · intro c hc hp
    unfold validateColorValue
    rw [if_neg (by simp [hc])]
    by_cases hlen : (pyUpper (removeHashes (pyStr c))).length = 6
    · rw [if_pos hlen, if_neg (by simp [hp])]
    · rw [if_neg hlen]
  · intro header ns v hns hv hsub
    show (List.foldlM parseFormattingStep [] [[.str ns, v]]) = _
    simp [parseFormattingStep, hns, hv, hsub, dictSet, upsert, anyKey]
  · intro d k dflt h
    unfold pyDictGet
    rw [h]
    rfl

/-- C8 (counterexample): `'0xABCD'` is six characters but not six hex
digits; the claim says it must be dropped, yet the code accepts it
(Python's `int(_, 16)` tolerates the `0X` prefix) and returns `0XABCD`,
propagating a non-6-hex-digit value.  Moreover a genuinely dropped
value (`XYZ123`) is stored as `None` under its key, so the consumer's
`.get('header_background_color', 'DDDDDD')` returns `None` — it does
not behave as if the option were absent. -/
theorem c8_counterexample :
    validateColorValue (.str "0xABCD") = .str "0XABCD" ∧
    isSixHexDigits "0XABCD" = false ∧
    parseFormattingSheet
        [[.str "param", .str "value"],
         [.str "header_background_color", .str "XYZ123"]]
      = some [(.str "header_background_color", Cell.pynone)] ∧
    pyDictGet [(.str "header_background_color", Cell.pynone)]
        (.str "header_background_color") (.str "DDDDDD") = Cell.pynone := by
  refine ⟨by decide, by decide, by decide, by decide⟩

theorem c8_witness :
    validateColorValue (.str "#ff00aa") = .str "FF00AA" ∧
    validateColorValue (.str "12345") = .pynone :=
  ⟨c8_color_validation.2.1 "#ff00aa" (by decide) (by decide),
   c8_color_validation.2.2.1 (.str "12345") (by decide) (by decide)⟩

/-- C3 (counterexample): two concrete runs refute the claim.  First, a
created column named "Экспедитор" with no fixed value is filled with
"ООО ТРАНСФОРА", not the empty string — a second reserved name the
claim does not admit.  Second, a "проект" column created while the
output table is still empty is NaN-backfilled (not empty strings) once
a later copy establishes the rows. -/
theorem c3_counterexample :
    colValues (processFile noLenient initStats
        ⟨[⟨.str "A", .str "B", .str "copy", .pynone, false, .str "DD.MM.YYYY", .str "ru"⟩,
          ⟨.str "Экспедитор", .str "Экспедитор", .str "create", .pynone, false,
            .str "DD.MM.YYYY", .str "ru"⟩],
         [], [], [], []⟩
        ⟨1, [(.str "A", [.str "v"])]⟩).1 (.str "Экспедитор")
      = some [.str "ООО ТРАНСФОРА"] ∧
    colValues (processFile noLenient initStats
        ⟨[⟨.str "проект", .str "проект", .str "create", .str "P", false,
            .str "DD.MM.YYYY", .str "ru"⟩,
          ⟨.str "A", .str "B", .str "copy", .pynone, false, .str "DD.MM.YYYY", .str "ru"⟩],
         [], [], [], []⟩
        ⟨1, [(.str "A", [.str "v"])]⟩).1 (.str "проект")
      = some [Cell.nan] := by
  refine ⟨by decide, by decide⟩

/-- C3 (amended): for a create-action ColumnSpec that is the last spec
targeting its name, processed after the output row count is established
(the first spec is a resolving copy, or the input is empty), the output
column holds the same fill value in every row: the empty string for the
reserved name "проект" regardless of any supplied fixed value,
"ООО ТРАНСФОРА" for the reserved name "Экспедитор" when `fixedValue` is
unset, and otherwise `fixedValue` (or the empty string when unset).  A
column created before the rows are established is NaN-backfilled
instead. -/
theorem c3_create_columns {lenient : String → Option PyDate} {df : Frame}
    (hdf : df.WF) (specs : List ColumnSpec) (stats : Stats)
    (hval : ∀ c ∈ specs, ValidAction c)
    (hstart : df.nrows = 0 ∨ ∃ c0 rest, specs = c0 :: rest ∧ Establishes df c0)
    {c : ColumnSpec} (hlast : lastSpecFor specs c.target_name = some c)
    (hcr : pyEqStr c.action "create" = true) :
    colValues (projectColumns lenient df stats specs).1 c.target_name
      = some (List.replicate df.nrows (createFill c)) := by
  obtain ⟨_, _, _, h4⟩ := projectColumns_char hdf specs hval hstart stats
  rw [h4 c.target_name, hlast]
  show some (expectedContent lenient df c) = _
  unfold expectedContent
  rw [if_pos hcr]

theorem c3_witness :
    colValues (projectColumns noLenient ⟨1, [(.str "A", [.str "v"])]⟩ initStats
        [⟨.str "A", .str "B", .str "copy", .pynone, false, .str "DD.MM.YYYY", .str "ru"⟩,
         ⟨.str "проект", .str "проект", .str "create", .str "P", false,
           .str "DD.MM.YYYY", .str "ru"⟩]).1 (.str "проект")
      = some [Cell.str ""] :=
  c3_create_columns (by intro p hp; simp at hp; simp [hp]) _ initStats
    (by decide)
    (Or.inr ⟨_, _, rfl, Or.inl (by decide), by decide⟩)
    (c := ⟨.str "проект", .str "проект", .str "create", .str "P", false,
      .str "DD.MM.YYYY", .str "ru"⟩)
    (by decide) (by decide)

/-- C2 (counterexample): three ColumnSpecs of which the first two share
the target name "T": the output table has 2 columns, not
`len(columns) = 3`; moreover "T" ends up NaN-backfilled — the
last-written fixed value "w" does not survive — because both creates
ran while the table was still row-less and the subsequent copy
established the index. -/
theorem c2_counterexample :
    colNames (processFile noLenient initStats
        ⟨[⟨.str "T", .str "T", .str "create", .str "v", false, .str "DD.MM.YYYY", .str "ru"⟩,
          ⟨.str "T", .str "T", .str "create", .str "w", false, .str "DD.MM.YYYY", .str "ru"⟩,
          ⟨.str "A", .str "B", .str "copy", .pynone, false, .str "DD.MM.YYYY", .str "ru"⟩],
         [], [], [], []⟩
        ⟨1, [(.str "A", [.str "x"])]⟩).1 = [.str "T", .str "B"] ∧
    ([⟨Cell.str "T", .str "T", .str "create", .str "v", false, .str "DD.MM.YYYY", .str "ru"⟩,
      ⟨.str "T", .str "T", .str "create", .str "w", false, .str "DD.MM.YYYY", .str "ru"⟩,
      ⟨.str "A", .str "B", .str "copy", .pynone, false, .str "DD.MM.YYYY", .str "ru"⟩]
        : List ColumnSpec).length = 3 ∧
    colValues (processFile noLenient initStats
        ⟨[⟨.str "T", .str "T", .str "create", .str "v", false, .str "DD.MM.YYYY", .str "ru"⟩,
          ⟨.str "T", .str "T", .str "create", .str "w", false, .str "DD.MM.YYYY", .str "ru"⟩,
          ⟨.str "A", .str "B", .str "copy", .pynone, false, .str "DD.MM.YYYY", .str "ru"⟩],
         [], [], [], []⟩
        ⟨1, [(.str "A", [.str "x"])]⟩).1 (.str "T") = some [Cell.nan] := by
  refine ⟨by decide, by decide, by decide⟩

/-- C2 (amended): under valid actions, when the first ColumnSpec is a
resolving copy (or the input table is empty), the Column Projector emits
exactly one output column per distinct targetName, in first-occurrence
order — so with pairwise-distinct targetNames the output has exactly
`len(columns)` columns in spec order — each column holding the content
contributed by the last spec targeting it (last-write-wins), and the
Replace-Rule Engine leaves the column structure unchanged. -/
theorem c2_columns {lenient : String → Option PyDate} {df : Frame}
    (hdf : df.WF) (inst : Instructions) (stats : Stats)
    (hval : ∀ c ∈ inst.columns, ValidAction c)
    (hstart : df.nrows = 0 ∨ ∃ c0 rest, inst.columns = c0 :: rest ∧ Establishes df c0) :
    colNames (projectColumns lenient df stats inst.columns).1
      = targetNamesDedup inst.columns ∧
    (List.Pairwise (fun a b => cellKeyEq a.target_name b.target_name = false)
        inst.columns →
      colNames (projectColumns lenient df stats inst.columns).1
        = inst.columns.map (fun c => c.target_name)) ∧
    (∀ T : Cell, colValues (projectColumns lenient df stats inst.columns).1 T
        = (lastSpecFor inst.columns T).map (expectedContent lenient df)) ∧
    colNames (processFile lenient stats inst df).1
      = colNames (projectColumns lenient df stats inst.columns).1 := by
  obtain ⟨_, _, h3, h4⟩ := projectColumns_char hdf inst.columns hval hstart stats
  refine ⟨h3, ?_, h4, ?_⟩
  · intro hpw
    rw [h3]
    unfold targetNamesDedup
    rw [dedup_of_distinct inst.columns [] (by intro c _ n hn; simp at hn) hpw]
    simp
  · exact (applyFold_frame_inv inst.replace_rules
      (projectColumns lenient df stats inst.columns).1 0).1

theorem c2_witness :
    colNames ((projectColumns noLenient ⟨1, [(.str "A", [.str "x"])]⟩ initStats
        [⟨.str "A", .str "B", .str "copy", .pynone, false, .str "DD.MM.YYYY", .str "ru"⟩,
         ⟨.str "C", .str "C", .str "create", .str "v", false, .str "DD.MM.YYYY", .str "ru"⟩]).1)
      = [.str "B", .str "C"] :=
  (c2_columns (by intro p hp; simp at hp; simp [hp])
      ⟨[⟨.str "A", .str "B", .str "copy", .pynone, false, .str "DD.MM.YYYY", .str "ru"⟩,
        ⟨.str "C", .str "C", .str "create", .str "v", false, .str "DD.MM.YYYY", .str "ru"⟩],
       [], [], [], []⟩ initStats
      (by decide)
      (Or.inr ⟨_, _, rfl, Or.inl (by decide), by decide⟩)).2.1
    (by decide)

/-! Helper lemmas for claim C6 (the Date Formatter). -/

theorem monthsRu_isSome {m : Nat} (h1 : 1 ≤ m) (h2 : m ≤ 12) :
    (monthsRu m).isSome = true := by
  interval_cases m <;> rfl

theorem monthsRuFull_isSome {m : Nat} (h1 : 1 ≤ m) (h2 : m ≤ 12) :
    (monthsRuFull m).isSome = true := by
  interval_cases m <;> rfl

theorem monthsEn_isSome {m : Nat} (h1 : 1 ≤ m) (h2 : m ≤ 12) :
    (monthsEn m).isSome = true := by
  interval_cases m <;> rfl

theorem monthsEnFull_isSome {m : Nat} (h1 : 1 ≤ m) (h2 : m ≤ 12) :
    (monthsEnFull m).isSome = true := by
  interval_cases m <;> rfl

theorem monthTableFor_isSome (loc : Cell) {m : Nat} (h1 : 1 ≤ m) (h2 : m ≤ 12) :
    (monthTableFor loc m).isSome = true := by
  unfold monthTableFor
  split_ifs <;>
    first
      | exact monthsRu_isSome h1 h2
      | exact monthsRuFull_isSome h1 h2
      | exact monthsEn_isSome h1 h2
      | exact monthsEnFull_isSome h1 h2

theorem monthTableForFullKey_isSome (key : String) {m : Nat} (h1 : 1 ≤ m)
    (h2 : m ≤ 12) : (monthTableForFullKey key m).isSome = true := by
  unfold monthTableForFullKey
  split_ifs <;>
    first
      | exact monthsRu_isSome h1 h2
      | exact monthsRuFull_isSome h1 h2
      | exact monthsEn_isSome h1 h2
      | exact monthsEnFull_isSome h1 h2

/-- For a calendar month the rendering cascade always succeeds, whatever
the (possibly unrecognised) format and locale cells are. -/
theorem renderDate_isSome (dateFmt dateLoc : Cell) (d : PyDate)
    (h1 : 1 ≤ d.month) (h2 : d.month ≤ 12) :
    ∃ out, renderDate dateFmt dateLoc d = some out := by
  unfold renderDate
  split_ifs
  · exact ⟨_, rfl⟩
  · exact ⟨_, rfl⟩
  · exact ⟨_, rfl⟩
  · exact ⟨_, rfl⟩
  · exact ⟨_, rfl⟩
  · obtain ⟨nm, hnm⟩ := Option.isSome_iff_exists.mp (monthTableFor_isSome dateLoc h1 h2)
    rw [hnm]
    exact ⟨_, rfl⟩
  · obtain ⟨nm, hnm⟩ := Option.isSome_iff_exists.mp
      (monthTableForFullKey_isSome (pyStr dateLoc ++ "_full") h1 h2)
    rw [hnm]
    exact ⟨_, rfl⟩
  · exact ⟨_, rfl⟩

/-- C6: the Date Formatter is a total function (every raising library
call is inside the source's `try/except`, modelled by `Option`), and for
every format/locale target: a null-like cell yields the empty string; an
empty string yields the empty string; a string no explicit candidate
format parses and the lenient pandas inference (abstracted as `lenient`)
rejects is returned textually unchanged; and a native date — or a string
one of the candidates parses — is re-rendered by the format cascade. -/
theorem c6_date_formatter (lenient : String → Option PyDate) (dateFmt dateLoc : Cell) :
    (∀ v : Cell, pyIsNA v = true → formatSingleDate lenient dateFmt dateLoc v = "") ∧
    (lenient "" = none → formatSingleDate lenient dateFmt dateLoc (.str "") = "") ∧
    (∀ s : String, strptimeFirst s = none → lenient s = none →
      formatSingleDate lenient dateFmt dateLoc (.str s) = s) ∧
    (∀ y m d : Nat, 1 ≤ m → m ≤ 12 →
      ∃ out, renderDate dateFmt dateLoc ⟨y, m, d⟩ = some out ∧
        formatSingleDate lenient dateFmt dateLoc (.date y m d) = out) ∧
    (∀ (s : String) (pd : PyDate), strptimeFirst s = some pd →
      1 ≤ pd.month → pd.month ≤ 12 →
      ∃ out, renderDate dateFmt dateLoc pd = some out ∧
        formatSingleDate lenient dateFmt dateLoc (.str s) = out) := by
  refine ⟨?_, ?_, ?_, ?_, ?_⟩
  · intro v hv
    unfold formatSingleDate
    rw [if_pos hv]
  · intro hl
    have hsp : strptimeFirst "" = none := by decide
    simp [formatSingleDate, pyIsNA, hsp, hl, pyStr]
  · intro s hsp hl
    simp [formatSingleDate, pyIsNA, hsp, hl, pyStr]
  · intro y m d h1 h2
    obtain ⟨out, hout⟩ := renderDate_isSome dateFmt dateLoc ⟨y, m, d⟩ h1 h2
    refine ⟨out, hout, ?_⟩
    simp [formatSingleDate, pyIsNA, pdToDatetimeNonString, hout]
  · intro s pd hsp h1 h2
    obtain ⟨out, hout⟩ := renderDate_isSome dateFmt dateLoc pd h1 h2
    refine ⟨out, hout, ?_⟩
    simp [formatSingleDate, pyIsNA, hsp, hout]

theorem c6_witness :
    formatSingleDate noLenient (.str "DD MMM YYYY") (.str "ru") Cell.nan = "" ∧
    formatSingleDate noLenient (.str "DD MMM YYYY") (.str "ru") (.str "hello")
      = "hello" ∧
    formatSingleDate noLenient (.str "DD MMM YYYY") (.str "ru") (.date 2025 3 7)
      = "07 мар 2025" := by
  obtain ⟨h1, _, h3, h4, _⟩ :=
    c6_date_formatter noLenient (.str "DD MMM YYYY") (.str "ru")
  refine ⟨h1 Cell.nan (by decide), h3 "hello" (by decide) rfl, ?_⟩
  obtain ⟨out, ho, he⟩ := h4 2025 3 7 (by decide) (by decide)
  rw [he]
  have hv : renderDate (.str "DD MMM YYYY") (.str "ru") ⟨2025, 3, 7⟩
      = some "07 мар 2025" := by decide
  rw [hv] at ho
  exact (Option.some.inj ho).symm

/-! Helper lemmas for claim C5 (the Replace-Rule Engine's writes). -/

theorem hasCol_setMasked (f : Frame) (t : Cell) (mask : List Bool) (v n : Cell) :
    hasCol (setMasked f t mask v) n = hasCol f n := by
  unfold hasCol setMasked
  rw [anyKey_eq_any_keys, anyKey_eq_any_keys, keys_mapVals]

theorem hasCol_isSome {f : Frame} {n : Cell} (h : hasCol f n = true) :
    (colValues f n).isSome = true :=
  anyKey_true_lookup_isSome (cellKeyEq_refl n) h

theorem zipWith_no_true (v : Cell) :
    ∀ (mask : List Bool) (vals : List Cell), mask.count true = 0 →
      mask.length = vals.length →
      List.zipWith (fun b old => if b then v else old) mask vals = vals := by
  intro mask
  induction mask with
  | nil =>
    intro vals _ hlen
    cases vals with
    | nil => rfl
    | cons w ws => simp at hlen
  | cons b bs ih =>
    intro vals hc hlen
    cases vals with
    | nil => simp at hlen
    | cons w ws =>
      have hb : b = false := by
        cases b with
        | false => rfl
        | true => simp [List.count_cons] at hc
      subst hb
      have hc2 : bs.count true = 0 := by
        simp [List.count_cons] at hc
        exact hc
      simp only [List.zipWith_cons_cons, if_false, Bool.false_eq_true, ite_false]
      rw [ih ws hc2 (by simpa using hlen)]

/-- C5: replace-rule application on a resolved, truthy-labelled column
(distinct from the two side-effect columns): matching is by string
representation — so the cell `5` matches the findValue `"5"` — the
resolved column receives `replaceValue` in exactly the matched rows, the
column literally named "проект" receives `projectValue` in the same
matched rows exactly when `projectValue` is truthy and that column
exists, and likewise "Заявка" with `projectValue2`. -/
theorem c5_replace_semantics {df : Frame} (hdf : df.WF) (rule : ReplaceRule)
    {tc : Cell} (k : Nat)
    (hres : findColumnCaseInsensitive df rule.column = some tc)
    (htr : truthy tc = true)
    (hp1 : cellKeyEq tc (.str "проект") = false)
    (hp2 : cellKeyEq tc (.str "Заявка") = false) :
    pyStr (Cell.int 5) = pyStr (Cell.str "5") ∧
    (∀ vals, colValues df tc = some vals →
      colValues (applyRule (df, k) rule).1 tc
        = some (List.zipWith (fun b old => if b then rule.replace_value else old)
            (ruleMask vals rule.find_value) vals) ∧
      (truthy rule.project_value = true ∧ hasCol df (.str "проект") = true →
        colValues (applyRule (df, k) rule).1 (.str "проект")
          = (colValues df (.str "проект")).map
              (fun pvals => List.zipWith
                (fun b old => if b then rule.project_value else old)
                (ruleMask vals rule.find_value) pvals)) ∧
      (¬(truthy rule.project_value = true ∧ hasCol df (.str "проект") = true) →
        colValues (applyRule (df, k) rule).1 (.str "проект")
          = colValues df (.str "проект")) ∧
      (truthy rule.project_value2 = true ∧ hasCol df (.str "Заявка") = true →
        colValues (applyRule (df, k) rule).1 (.str "Заявка")
          = (colValues df (.str "Заявка")).map
              (fun pvals => List.zipWith
                (fun b old => if b then rule.project_value2 else old)
                (ruleMask vals rule.find_value) pvals)) ∧
      (¬(truthy rule.project_value2 = true ∧ hasCol df (.str "Заявка") = true) →
        colValues (applyRule (df, k) rule).1 (.str "Заявка")
          = colValues df (.str "Заявка"))) := by
  refine ⟨rfl, ?_⟩
  intro vals hvals
  have hgetD : (colValues df tc).getD [] = vals := by rw [hvals]; rfl
  have hvlen : vals.length = df.nrows := by
    obtain ⟨p, hp, hp2v⟩ := entryLookup_some_mem hvals
    rw [← hp2v]
    exact hdf p hp
  have hmlen : (ruleMask vals rule.find_value).length = vals.length := by
    simp [ruleMask]
  have hp1' : cellKeyEq (.str "проект") tc = false := by
    rw [cellKeyEq_comm]; exact hp1
  have hp2' : cellKeyEq (.str "Заявка") tc = false := by
    rw [cellKeyEq_comm]; exact hp2
  have hpz : cellKeyEq (Cell.str "проект") (.str "Заявка") = false := by decide
  have hpz' : cellKeyEq (Cell.str "Заявка") (.str "проект") = false := by decide
  by_cases haff : (ruleMask vals rule.find_value).count true > 0
  · have happ : (applyRule (df, k) rule).1 =
        (if truthy rule.project_value2 = true ∧ hasCol df (.str "Заявка") = true then
          setMasked
            (if truthy rule.project_value = true ∧ hasCol df (.str "проект") = true then
              setMasked (setMasked df tc (ruleMask vals rule.find_value) rule.replace_value)
                (.str "проект") (ruleMask vals rule.find_value) rule.project_value
            else setMasked df tc (ruleMask vals rule.find_value) rule.replace_value)
            (.str "Заявка") (ruleMask vals rule.find_value) rule.project_value2
        else
          (if truthy rule.project_value = true ∧ hasCol df (.str "проект") = true then
            setMasked (setMasked df tc (ruleMask vals rule.find_value) rule.replace_value)
              (.str "проект") (ruleMask vals rule.find_value) rule.project_value
          else setMasked df tc (ruleMask vals rule.find_value) rule.replace_value)) := by
      simp [applyRule, hres, htr, hgetD, haff, hasCol_setMasked,
        apply_ite (fun f => hasCol f (Cell.str "Заявка"))]
    rw [happ]
    refine ⟨?_, ?_, ?_, ?_, ?_⟩
    · by_cases hC2 : truthy rule.project_value2 = true ∧ hasCol df (.str "Заявка") = true <;>
        by_cases hC1 : truthy rule.project_value = true ∧ hasCol df (.str "проект") = true <;>
        simp [hC1, hC2, colValues_setMasked, cellKeyEq_refl, hp1, hp2, hvals]
    · intro hC1
      by_cases hC2 : truthy rule.project_value2 = true ∧ hasCol df (.str "Заявка") = true <;>
        simp [hC1, hC2, colValues_setMasked, cellKeyEq_refl, hp1', hpz]
    · intro hC1
      by_cases hC2 : truthy rule.project_value2 = true ∧ hasCol df (.str "Заявка") = true <;>
        simp [hC1, hC2, colValues_setMasked, cellKeyEq_refl, hp1', hpz]
    · intro hC2
      by_cases hC1 : truthy rule.project_value = true ∧ hasCol df (.str "проект") = true <;>
        simp [hC1, hC2, colValues_setMasked, cellKeyEq_refl, hp2', hpz']
    · intro hC2
      by_cases hC1 : truthy rule.project_value = true ∧ hasCol df (.str "проект") = true <;>
        simp [hC1, hC2, colValues_setMasked, cellKeyEq_refl, hp2', hpz']
  · have hc0 : (ruleMask vals rule.find_value).count true = 0 := by omega
    have happ : applyRule (df, k) rule = (df, k) := by
      simp [applyRule, hres, htr, hgetD, haff]
    rw [happ]
    refine ⟨?_, ?_, ?_, ?_, ?_⟩
    · rw [hvals, zipWith_no_true _ _ _ hc0 hmlen]
    · intro hC1
      obtain ⟨pvals, hpv⟩ := Option.isSome_iff_exists.mp (hasCol_isSome hC1.2)
      have hplen : pvals.length = df.nrows := by
        obtain ⟨p, hp, hp2v⟩ := entryLookup_some_mem hpv
        rw [← hp2v]
        exact hdf p hp
      rw [hpv]
      show some pvals = some (List.zipWith _ _ pvals)
      rw [zipWith_no_true _ _ _ hc0 (by rw [hmlen, hvlen, hplen])]
    · intro _; rfl
    · intro hC2
      obtain ⟨pvals, hpv⟩ := Option.isSome_iff_exists.mp (hasCol_isSome hC2.2)
      have hplen : pvals.length = df.nrows := by
        obtain ⟨p, hp, hp2v⟩ := entryLookup_some_mem hpv
        rw [← hp2v]
        exact hdf p hp
      rw [hpv]
      show some pvals = some (List.zipWith _ _ pvals)
      rw [zipWith_no_true _ _ _ hc0 (by rw [hmlen, hvlen, hplen])]
    · intro _; rfl

theorem c5_witness :
    colValues (applyRule
        (⟨3, [(.str "Статус", [.str "OK", .str "FAIL", .str "OK"]),
              (.str "проект", [.str "", .str "", .str ""])]⟩, 0)
        ⟨.str "Статус", .str "FAIL", .str "Ошибка", .str "P1", .pynone⟩).1
      (.str "Статус") = some [.str "OK", .str "Ошибка", .str "OK"] ∧
    colValues (applyRule
        (⟨3, [(.str "Статус", [.str "OK", .str "FAIL", .str "OK"]),
              (.str "проект", [.str "", .str "", .str ""])]⟩, 0)
        ⟨.str "Статус", .str "FAIL", .str "Ошибка", .str "P1", .pynone⟩).1
      (.str "проект") = some [.str "", .str "P1", .str ""] := by
  obtain ⟨_, h⟩ := @c5_replace_semantics
    ⟨3, [(.str "Статус", [.str "OK", .str "FAIL", .str "OK"]),
         (.str "проект", [.str "", .str "", .str ""])]⟩
    (by intro p hp; simp at hp; rcases hp with hp | hp <;> simp [hp])
    ⟨.str "Статус", .str "FAIL", .str "Ошибка", .str "P1", .pynone⟩
    (.str "Статус") 0 (by decide) (by decide) (by decide) (by decide)
  obtain ⟨h2, h3, _, _, _⟩ := h [.str "OK", .str "FAIL", .str "OK"] (by decide)
  constructor
  · rw [h2]
    decide
  · rw [h3 (by decide)]
    decide


/-! ### Evaluation checks of the embedding on concrete inputs -/

example : strpYMD "2025-03-07" = some ⟨2025, 3, 7⟩ := by decide

example : strpYMD "2025-03-32" = none := by decide

example : strpDMY '.' "7.3.2025" = some ⟨2025, 3, 7⟩ := by decide

example : strpYMD "2023-02-29" = none := by decide

example : strpYMD "2024-02-29" = some ⟨2024, 2, 29⟩ := by decide

example : strpYMDHMS "2024-1-2 3:4:5" = some ⟨2024, 1, 2⟩ := by decide

example : strptimeFirst "hello" = none := by decide

example :
    formatSingleDate (fun _ => none) (.str "DD MMM YYYY") (.str "ru")
      (.date 2025 3 7) = "07 мар 2025" := by decide

example : validateColorValue (.str "#ff00aa") = .str "FF00AA" := by decide

example : validateColorValue (.str "XYZ123") = .pynone := by decide

example : validateColorValue (.str "0xABCD") = .str "0XABCD" := by decide

example : validateColorValue (.str "A#BCDEF") = .str "ABCDEF" := by decide

example : parseBooleanValue (.str " Да ") = true := by decide

example : parseBooleanValue (.int 1) = true := by decide

end EMP
